import Mathlib

/-!
Verification of the plugin configuration / lifecycle subsystem of the heka
pipeline (`src/pipeline/config.go`), as a shallow embedding in Lean.

Conventions used throughout:
* Go strings and byte buffers are modelled as `List Char` (the config text is
  ASCII in everything the claims exercise) or `String`.
* Go `uint` (64-bit) arithmetic is modelled on `Nat` with explicit reduction
  `% 2^64` where the source increments a `uint`.
* Fallible Go functions returning `(T, error)` are modelled with `Except`.
* The process environment (`os.Getenv`) is an explicit parameter
  `env : String → String`; an unset variable is the empty string, exactly as
  `os.Getenv` reports it.
* Reference identity of heap-allocated plugin instances is modelled by a ghost
  allocation counter: each plugin instance carries the `Nat` it was allocated
  at, and a maker state carries the next free allocation number.
-/

/-! ### Config text preprocessor: `EnvSub` (config.go lines 1123-1182) -/

/-- Errors of `EnvSub`: `ErrMissingCloseDelim` and `ErrInvalidChars` from
config.go. -/
inductive EnvErr where
  | missingCloseDelim
  | invalidChars
deriving DecidableEq, Repr

/-- Source constant `invalidEnvChars = "\n\r\t "` from config.go. -/
def invalidEnvChars : List Char := ['\n', '\r', '\t', ' ']

/-- Source constant `invalidEnvPrefix = []byte("%ENV[")` from config.go (renamed). -/
def nestedEnvToken : List Char := ['%', 'E', 'N', 'V', '[']

/-- Model of `bytes.Index(l, pat) != -1`: whether `pat` occurs as a contiguous
subsequence of `l`. -/
def containsSeq (pat : List Char) : List Char → Bool
  | [] => pat.isPrefixOf []
  | x :: xs => pat.isPrefixOf (x :: xs) || containsSeq pat xs

/-- Model of `bufio.Reader.ReadBytes(c)`: splits the input at the first
occurrence of `c`; `some (before, after)` when `c` occurs (the delimiter is
consumed), `none` when the reader hits EOF first. -/
def readUntil (c : Char) : List Char → Option (List Char × List Char)
  | [] => none
  | x :: xs =>
    if x = c then some ([], xs)
    else
      match readUntil c xs with
      | none => none
      | some (a, b) => some (x :: a, b)

/-- The scanning loop of `EnvSub`, fuelled (the fuel is only a structural
recursion device; `envSub` supplies fuel that always suffices).  Each loop
iteration of the Go code:
reads up to the next `'%'` (EOF: flush and stop); peeks 4 bytes (EOF, i.e.
fewer than 4 bytes left: writes `'%'` plus the remainder and stops); on
`"ENV["` consumes it, reads to `']'` (EOF: `ErrMissingCloseDelim`), rejects
names with whitespace or a nested `"%ENV["` (`ErrInvalidChars`), else emits
the value of the environment variable; otherwise writes the `'%'` and rescans
from the peeked bytes. -/
def envSubGo (env : String → String) : Nat → List Char → Except EnvErr (List Char)
  | 0, l => .ok l
  | fuel + 1, l =>
    match readUntil '%' l with
    | none => .ok l
    | some (pre, rest) =>
      if rest.take 4 = ['E', 'N', 'V', '['] then
        match readUntil ']' (rest.drop 4) with
        | none => .error .missingCloseDelim
        | some (name, rest2) =>
          if (name ++ [']']).any (fun c => invalidEnvChars.contains c) ||
              containsSeq nestedEnvToken (name ++ [']']) then
            .error .invalidChars
          else
            match envSubGo env fuel rest2 with
            | .error e => .error e
            | .ok out => .ok (pre ++ (env (String.mk name)).data ++ out)
      else if rest.length < 4 then
        .ok (pre ++ '%' :: rest)
      else
        match envSubGo env fuel rest with
        | .error e => .error e
        | .ok out => .ok (pre ++ '%' :: out)

/-- The function `EnvSub` (config.go lines 1123-1182), on the full input text. -/
def envSub (env : String → String) (l : List Char) : Except EnvErr (List Char) :=
  envSubGo env l.length l

/-- A concrete test environment: variable `X` is set to `val`, everything else
is unset (the empty string, as `os.Getenv` reports). -/
def envEx : String → String := fun s => if s = "X" then "val" else ""

/-! ### RetryOptions defaults (config.go lines 451-462, 523-529, 604-617) -/

/-- The struct `RetryOptions` (config.go lines 451-462).  The duration fields are the raw
TOML strings, exactly as in the Go struct. -/
structure RetryOptions where
  maxDelay : String
  delay : String
  maxJitter : String
  maxRetries : Int
deriving DecidableEq, Repr

/-- The function `getDefaultRetryOptions` (config.go lines 523-529).  The Go composite
literal sets `MaxDelay`, `Delay` and `MaxRetries` only; `MaxJitter` is left at
the string zero value `""`. -/
def getDefaultRetryOptions : RetryOptions :=
  { maxDelay := "30s", delay := "250ms", maxJitter := "", maxRetries := -1 }

/-- The retry-relevant projection of a user's TOML section: for each
`RetryOptions` field, `none` when the section leaves the field unset. -/
structure RetrySection where
  maxDelayU : Option String
  delayU : Option String
  maxJitterU : Option String
  maxRetriesU : Option Int
deriving DecidableEq, Repr

/-- Model of `toml.PrimitiveDecode(tomlSection, &common)` restricted to the
`Retries` field: decoding overwrites exactly the fields present in the
section and keeps the pre-populated defaults for the rest. -/
def decodeRetry (base : RetryOptions) (sec : RetrySection) : RetryOptions :=
  { maxDelay := sec.maxDelayU.getD base.maxDelay,
    delay := sec.delayU.getD base.delay,
    maxJitter := sec.maxJitterU.getD base.maxJitter,
    maxRetries := sec.maxRetriesU.getD base.maxRetries }

/-- The `Retries` value of the category-common config built by
`NewPluginMaker` (config.go lines 604-617): for Input, Filter and Output
sections the defaults from `getDefaultRetryOptions` are installed and then
the user's section is decoded over them; Decoder and Encoder categories have
no category-common config (`none`). -/
def initialRetries (category : String) (sec : RetrySection) : Option RetryOptions :=
  if category = "Input" ∨ category = "Filter" ∨ category = "Output" then
    some (decodeRetry getDefaultRetryOptions sec)
  else none

/-! ### Plugin maker (config.go lines 555-790) -/

/-- A plugin instance; `id` is the ghost allocation number standing for the
Go heap reference, so reference (in)equality of instances is (in)equality of
`id`. -/
structure Plugin where
  id : Nat
deriving DecidableEq, Repr

/-- The decoded config struct held by a maker (`m.configStruct`): either the
plugin's own config struct (`HasConfigStruct` plugins; `decoded` lists the
section keys that were decoded into it), or the permissive generic
`PluginConfig` key/value bag. -/
inductive ConfigData where
  | typed (decoded : List String)
  | generic (decoded : List String)
deriving DecidableEq, Repr

/-- State of a `pluginMaker` (config.go lines 555-566), restricted to the
fields the claims exercise.  `sectionKeys` are the keys present in the TOML
section; `hasConfigStruct` records whether the plugin type implements
`HasConfigStruct`; `schemaKeys` are the (TOML-tag) field names of the
plugin's config struct; `nextId` is the ghost allocation counter. -/
structure MakerState where
  name : String
  category : String
  sectionKeys : List String
  hasConfigStruct : Bool
  schemaKeys : List String
  configStruct : Option ConfigData
  configPrepped : Bool
  plugin : Option Plugin
  nextId : Nat
deriving DecidableEq, Repr

/-- The method `makePlugin` (config.go lines 653-662): invokes the registered
constructor, i.e. allocates a fresh instance.  The `WantsPipelineConfig` and
`WantsName` injections mutate the fresh plugin only and are not observable in
this model.  The caller stores the instance if it wants to keep it. -/
def makePlugin (s : MakerState) : Plugin × MakerState :=
  ({ id := s.nextId }, { s with nextId := s.nextId + 1 })

/-- The method `makeConfig` (config.go lines 668-679): ensures a plugin instance is
cached, then creates the config struct from `ConfigStruct()` for
`HasConfigStruct` plugins and an empty `PluginConfig` bag otherwise. -/
def makeConfig (s : MakerState) : MakerState :=
  let s1 :=
    if s.plugin.isNone then
      let p := makePlugin s
      { p.2 with plugin := some p.1 }
    else s
  if s1.hasConfigStruct then { s1 with configStruct := some (.typed []) }
  else { s1 with configStruct := some (.generic []) }

/-- Field (TOML tag) names of `CommonConfig` (config.go lines 501-503). -/
def commonConfigKeys : List String := ["type"]

/-- Field (TOML tag) names of `CommonInputConfig` (config.go lines 505-511). -/
def commonInputKeys : List String :=
  ["ticker_interval", "Decoder", "synchronous_decode", "send_decode_failures",
   "Retries"]

/-- Field (TOML tag) names of `CommonFOConfig` (config.go lines 513-521). -/
def commonFOKeys : List String :=
  ["ticker_interval", "message_matcher", "message_signer", "can_exit",
   "Retries", "Encoder", "use_framing"]

/-- The `hekaParams` set built by reflection in `PrepConfig` (config.go lines
729-744): the field names of `m.commonConfig` plus, when the category has a
category-common config (`m.commonTypedConfig` non-nil, i.e. Input or
Filter/Output), its field names. -/
def hekaParams (category : String) : List String :=
  commonConfigKeys ++
    (if category = "Input" then commonInputKeys
     else if category = "Filter" ∨ category = "Output" then commonFOKeys
     else [])

/-- Errors raised by `PrepConfig`.  `unknownConfigSetting name key` is the
`"unknown config setting for '<name>': <key>"` error produced when
`toml.PrimitiveDecodeStrict` reports a configuration key (captured through
`unknownOptionRegex`) that is neither a schema field nor a heka param. -/
inductive PrepErr where
  | unknownConfigSetting (name key : String)
deriving DecidableEq, Repr

/-- Model of `toml.PrimitiveDecodeStrict`'s unknown-key detection: the first
section key that is neither a field of the plugin's config struct nor one of
the excluded `hekaParams`. -/
def firstUnknownKey (sectionKeys schemaKeys params : List String) : Option String :=
  sectionKeys.find? (fun k => !(schemaKeys.contains k || params.contains k))

/-- The config-struct/instance creation step at the head of `PrepConfig`
(config.go lines 710-714): `if m.configStruct == nil { m.makeConfig() } else
if m.plugin == nil { m.plugin = m.makePlugin() }`. -/
def prepAlloc (s : MakerState) : MakerState :=
  if s.configStruct.isNone then makeConfig s
  else if s.plugin.isNone then
    let p := makePlugin s
    { p.2 with plugin := some p.1 }
  else s

/-- The method `PrepConfig` (config.go lines 704-762).  Returns the result together with
the mutated maker state (the Go method mutates `m` in place). -/
def PrepConfig (s : MakerState) : Except PrepErr Unit × MakerState :=
  if s.configPrepped then (.ok (), s)
  else
    let s1 := prepAlloc s
    if !s1.hasConfigStruct then
      (.ok (), { s1 with configStruct := some (.generic s1.sectionKeys),
                         configPrepped := true })
    else
      match firstUnknownKey s1.sectionKeys s1.schemaKeys (hekaParams s1.category) with
      | some k => (.error (.unknownConfigSetting s1.name k), s1)
      | none =>
        (.ok (), { s1 with
                     configStruct :=
                       some (.typed (s1.sectionKeys.filter
                         (fun k => s1.schemaKeys.contains k))),
                     configPrepped := true })

/-- Errors raised by `Make`: a pass-through `PrepConfig` error, or the
`"Initialization failed for '<name>'"` error. -/
inductive MakeErr where
  | prepFailed (e : PrepErr)
  | initFailed (name : String)
deriving DecidableEq, Repr

/-- The consume-or-allocate and `Init` part of `Make` (config.go lines
777-789): take the cached instance and clear the cache, or allocate a fresh
instance; then run the plugin's `Init` on the decoded config.  `initOk`
abstracts the plugin's `Init` outcome as a function of the config struct. -/
def MakeCore (initOk : Option ConfigData → Bool) (s : MakerState) :
    Except MakeErr Plugin × MakerState :=
  let ps :=
    match s.plugin with
    | none => makePlugin s
    | some p => (p, { s with plugin := none })
  if initOk ps.2.configStruct then (.ok ps.1, ps.2)
  else (.error (.initFailed ps.2.name), ps.2)

/-- The method `Make` (config.go lines 769-790): preps the config if it has not been
prepped, then defers to the consume-or-allocate + `Init` logic. -/
def Make (initOk : Option ConfigData → Bool) (s : MakerState) :
    Except MakeErr Plugin × MakerState :=
  if !s.configPrepped then
    match PrepConfig s with
    | (.error e, s') => (.error (.prepFailed e), s')
    | (.ok _, s') => MakeCore initOk s'
  else MakeCore initOk s

/-! ### PipelinePack acquisition (config.go lines 204-216) -/

/-- 2^64, the modulus of Go's 64-bit `uint`. -/
def UINT_MOD : Nat := 18446744073709551616

/-- The message fields touched by `PipelinePack`; `payload` stands for all
the message fields the method does not touch. -/
structure Message where
  uuid : List Nat
  timestamp : Int
  hostname : String
  pid : Int
  payload : String
deriving DecidableEq, Repr

/-- A `PipelinePack` envelope, restricted to the fields the method writes. -/
structure PPack where
  message : Message
  refCount : Nat
  msgLoopCount : Nat
deriving DecidableEq, Repr

/-- The method `PipelineConfig.PipelinePack` (config.go lines 204-216).  `maxMsgLoops`
is `Globals.MaxMsgLoops` (a Go `uint`); `recycled` is the pack received from
`injectRecycleChan` (the channel receive itself, i.e. blocking on an empty
pool, is outside this model); `now` and `newUuid` stand for `time.Now()` and
`uuid.NewRandom()`.  The `msgLoopCount++` increment is 64-bit `uint`
arithmetic, hence the explicit `% UINT_MOD`. -/
def pipelinePack (maxMsgLoops : Nat) (hostname : String) (pid : Int)
    (now : Int) (newUuid : List Nat) (recycled : PPack) (msgLoopCount : Nat) :
    Option PPack :=
  let mlc := (msgLoopCount + 1) % UINT_MOD
  if mlc > maxMsgLoops then none
  else
    some { message := { recycled.message with
                          timestamp := now, uuid := newUuid,
                          hostname := hostname, pid := pid },
           refCount := 1, msgLoopCount := mlc }

/-! ### Filter runner removal (config.go lines 384-397) -/

/-- A running `FilterRunner`, reduced to its name and its matcher handle (the
value sent to the router's remove-matcher channel). -/
structure FilterRunner where
  fname : String
  matchRunner : Nat
deriving DecidableEq, Repr

/-- Association-list lookup, modelling a read from a Go `map[string]V`. -/
def lookupA {α : Type} (l : List (String × α)) (k : String) : Option α :=
  (l.find? (fun p => p.1 == k)).map (fun p => p.2)

/-- The slice of `PipelineConfig` state that `RemoveFilterRunner` touches:
the shutdown flag read through `Globals.IsShuttingDown()`, the
`FilterRunners` map, and the log of matchers sent to
`router.RemoveFilterMatcher()`. -/
structure FilterState where
  shuttingDown : Bool
  filterRunners : List (String × FilterRunner)
  removedMatchers : List Nat
deriving DecidableEq, Repr

/-- The method `RemoveFilterRunner` (config.go lines 384-397): refuse while shutting
down; otherwise, if the name is registered, send its matcher to the router,
delete it from the map and return true. -/
def RemoveFilterRunner (s : FilterState) (name : String) : Bool × FilterState :=
  if s.shuttingDown then (false, s)
  else
    match lookupA s.filterRunners name with
    | some fr =>
      (true, { s with
                 removedMatchers := s.removedMatchers ++ [fr.matchRunner],
                 filterRunners :=
                   s.filterRunners.filter (fun p => !(p.1 == name)) })
    | none => (false, s)

/-! ### Encoder lookup-and-instantiate (config.go lines 313-335) -/

/-- The slice of `PipelineConfig` state that `Encoder` touches: the
`makers["Encoder"]` map, the accumulated `LogMsgs`, and the `allEncoders`
map. -/
structure EncState where
  encoderMakers : List (String × MakerState)
  logMsgs : List String
  allEncoders : List (String × Plugin)
deriving DecidableEq, Repr

/-- Association-list update, modelling a write to a Go `map[string]V`. -/
def updateA {α : Type} (l : List (String × α)) (k : String) (v : α) :
    List (String × α) :=
  l.map (fun p => if p.1 == k then (k, v) else p)

/-- The outcome of `PipelineConfig.Encoder`.  `panicNilAssertion` models the
run-time panic of the unchecked type assertion `plugin.(Encoder)` executed on
the nil `plugin` returned by a failed `maker.Make()`: the method does not
return `ok == false` on that path, it proceeds to treat the failed result as
an `Encoder`, which panics. -/
inductive EncoderResult where
  | notRegistered
  | panicNilAssertion
  | found (p : Plugin)
deriving DecidableEq, Repr

/-- The `"Error creating encoder '<fullName>': <err>"` message logged by
`Encoder` when `maker.Make()` fails. -/
def encoderErrMsg (fullName : String) (e : MakeErr) : String :=
  "Error creating encoder " ++ fullName ++
    (match e with
     | .prepFailed (.unknownConfigSetting n k) =>
       ": unknown config setting for " ++ n ++ ": " ++ k
     | .initFailed n => ": Initialization failed for " ++ n)

/-- The method `PipelineConfig.Encoder` (config.go lines 313-335): look the maker up by
base name (`ok == false` if absent); call `Make()`; on error only log the
message and fall through to the type assertion, which panics on the nil
result; on success record the encoder in `allEncoders` and return it with
`ok == true`.  (`WantsName.SetName` mutates the returned plugin only and is
not observable here.) -/
def EncoderMethod (initOk : Option ConfigData → Bool) (s : EncState)
    (baseName fullName : String) : EncoderResult × EncState :=
  match lookupA s.encoderMakers baseName with
  | none => (.notRegistered, s)
  | some mk =>
    match Make initOk mk with
    | (.error e, mk') =>
      (.panicNilAssertion,
        { s with encoderMakers := updateA s.encoderMakers baseName mk',
                 logMsgs := s.logMsgs ++ [encoderErrMsg fullName e] })
    | (.ok p, mk') =>
      (.found p,
        { s with encoderMakers := updateA s.encoderMakers baseName mk',
                 allEncoders := s.allEncoders ++ [(fullName, p)] })

/-! ### Concrete instances used by the witnesses -/

/-- An `Init` that always succeeds. -/
def initAlwaysOk : Option ConfigData → Bool := fun _ => true

/-- An `Init` that always fails. -/
def initAlwaysFails : Option ConfigData → Bool := fun _ => false

/-- A freshly constructed maker for a schemaless filter plugin. -/
def mkS0 : MakerState :=
  { name := "stat", category := "Filter", sectionKeys := [],
    hasConfigStruct := false, schemaKeys := [], configStruct := none,
    configPrepped := false, plugin := none, nextId := 0 }

/-- State `mkS0` after its first successful `Make` call. -/
def mkS1 : MakerState :=
  { name := "stat", category := "Filter", sectionKeys := [],
    hasConfigStruct := false, schemaKeys := [],
    configStruct := some (.generic []), configPrepped := true, plugin := none,
    nextId := 1 }

/-- State `mkS1` after the second successful `Make` call. -/
def mkS2 : MakerState :=
  { mkS1 with nextId := 2 }

/-- A maker whose section contains the unknown key `bogus` next to the schema
key `rate`. -/
def mkBadKey : MakerState :=
  { name := "counter", category := "Filter", sectionKeys := ["rate", "bogus"],
    hasConfigStruct := true, schemaKeys := ["rate"], configStruct := none,
    configPrepped := false, plugin := none, nextId := 0 }

/-- A maker whose config has already been prepped. -/
def mkPrepped : MakerState :=
  { name := "x", category := "Decoder", sectionKeys := ["a"],
    hasConfigStruct := true, schemaKeys := ["a"],
    configStruct := some (.typed ["a"]), configPrepped := true, plugin := none,
    nextId := 3 }

/-- A recycled envelope with stale field values. -/
def packEx : PPack :=
  { message := { uuid := [9], timestamp := 5, hostname := "old", pid := 2,
                 payload := "body" },
    refCount := 0, msgLoopCount := 7 }

/-- An orchestrator that is shutting down with the filter `f` registered. -/
def fsEx : FilterState :=
  { shuttingDown := true,
    filterRunners := [("f", { fname := "f", matchRunner := 7 })],
    removedMatchers := [] }

/-- A section that leaves every retry field unset. -/
def emptyRetrySection : RetrySection :=
  { maxDelayU := none, delayU := none, maxJitterU := none, maxRetriesU := none }

/-- An encoder maker registry holding one schemaless encoder maker under the
base name `pe`. -/
def encStateEx : EncState :=
  { encoderMakers :=
      [("pe",
        { name := "pe", category := "Encoder", sectionKeys := [],
          hasConfigStruct := false, schemaKeys := [], configStruct := none,
          configPrepped := false, plugin := none, nextId := 0 })],
    logMsgs := [], allEncoders := [] }

/-! ### Configuration load order (config.go lines 938-1105) -/

/-- One TOML section of the config file: its name, its `type` key (`""` when
the section has no `type` key; `NewPluginMaker` then defaults the type to the
section name), and its `subs` key (the subordinate list read by
`subsFromSection`, empty when absent). -/
structure ConfigSection where
  name : String
  typ : String
  subs : List String
deriving DecidableEq, Repr

/-- A `strings.HasSuffix`-style check used to model `PluginTypeRegex`. -/
def endsWithStr (s sfx : String) : Bool := sfx.data.isSuffixOf s.data

/-- The function `getPluginCategory` (config.go lines 493-499): the suffix of the plugin
type name matched by `PluginTypeRegex = (Decoder|Encoder|Filter|Input|Output)$`
(no two of the five alternatives can both be suffixes of one string, so the
match is unambiguous), or `""` when none matches. -/
def getPluginCategory (pluginType : String) : String :=
  if endsWithStr pluginType "Decoder" then "Decoder"
  else if endsWithStr pluginType "Encoder" then "Encoder"
  else if endsWithStr pluginType "Filter" then "Filter"
  else if endsWithStr pluginType "Input" then "Input"
  else if endsWithStr pluginType "Output" then "Output"
  else ""

/-- The load-order-relevant projection of a constructed `pluginMaker`. -/
structure LoadedMaker where
  name : String
  typ : String
  category : String
  subs : List String
deriving DecidableEq, Repr

/-- The function `NewPluginMaker` (config.go lines 572-625), reduced to the data the load
order depends on: default the type to the section name, fail (`none`) on an
unregistered type (`AvailablePlugins` is the `registry` list) or an
unrecognized category. -/
def NewPluginMakerM (registry : List String) (sec : ConfigSection) :
    Option LoadedMaker :=
  let typ := if sec.typ = "" then sec.name else sec.typ
  if registry.contains typ then
    if getPluginCategory typ = "" then none
    else some { name := sec.name, typ := typ,
                category := getPluginCategory typ, subs := sec.subs }
  else none

/-- The `makersByCategory` map built by `LoadFromConfigFile`; the reserved
`"MultiDecoder"` bucket is the `multis` field. -/
structure MakersByCategory where
  decoders : List LoadedMaker
  encoders : List LoadedMaker
  inputs : List LoadedMaker
  filters : List LoadedMaker
  outputs : List LoadedMaker
  multis : List LoadedMaker
deriving DecidableEq, Repr

/-- The empty `makersByCategory` map. -/
def emptyMBC : MakersByCategory := ⟨[], [], [], [], [], []⟩

/-- Filing one maker (config.go lines 973-981): `MultiDecoder`-typed makers
go to the reserved `MultiDecoder` bucket, everything else to its category
bucket. -/
def fileMaker (mbc : MakersByCategory) (mk : LoadedMaker) : MakersByCategory :=
  if mk.typ = "MultiDecoder" then { mbc with multis := mbc.multis ++ [mk] }
  else if mk.category = "Decoder" then
    { mbc with decoders := mbc.decoders ++ [mk] }
  else if mk.category = "Encoder" then
    { mbc with encoders := mbc.encoders ++ [mk] }
  else if mk.category = "Input" then { mbc with inputs := mbc.inputs ++ [mk] }
  else if mk.category = "Filter" then
    { mbc with filters := mbc.filters ++ [mk] }
  else if mk.category = "Output" then
    { mbc with outputs := mbc.outputs ++ [mk] }
  else mbc

/-- One iteration of the pre-loading loop (config.go lines 961-988): skip the
reserved `hekad` section; a failed maker construction is logged and counted
but skipped; otherwise file the maker and track whether `ProtobufDecoder` /
`ProtobufEncoder` were seen. -/
def preloadStep (registry : List String) (acc : MakersByCategory × Bool × Bool)
    (sec : ConfigSection) : MakersByCategory × Bool × Bool :=
  if sec.name = "hekad" then acc
  else
    match NewPluginMakerM registry sec with
    | none => acc
    | some mk =>
      (fileMaker acc.1 mk,
       acc.2.1 || (mk.name == "ProtobufDecoder"),
       acc.2.2 || (mk.name == "ProtobufEncoder"))

/-- The pre-loading loop over all sections. -/
def preload (registry : List String) (cfg : List ConfigSection) :
    MakersByCategory × Bool × Bool :=
  cfg.foldl (preloadStep registry) (emptyMBC, false, false)

/-- Config.go lines 991-1022: when no `ProtobufDecoder` / `ProtobufEncoder`
maker was created, synthesize default sections (`[ProtobufDecoder]` /
`[ProtobufEncoder]`, no keys) and append the resulting makers to the Decoder
/ Encoder buckets (a construction failure is logged and skipped). -/
def addProtobufDefaults (registry : List String)
    (acc : MakersByCategory × Bool × Bool) : MakersByCategory :=
  let mbc1 :=
    if acc.2.1 then acc.1
    else
      match NewPluginMakerM registry
          { name := "ProtobufDecoder", typ := "", subs := [] } with
      | some mk => { acc.1 with decoders := acc.1.decoders ++ [mk] }
      | none => acc.1
  if acc.2.2 then mbc1
  else
    match NewPluginMakerM registry
        { name := "ProtobufEncoder", typ := "", subs := [] } with
    | some mk => { mbc1 with encoders := mbc1.encoders ++ [mk] }
    | none => mbc1

/-- Modelled from the spec: the `multiDecoderNode` type consumed by
`orderDependencies` (both defined outside `src/pipeline/config.go`); per
spec §3 it is "a projection of a composite decoder's declared sub-decoder
references, used only for ordering". -/
structure multiDecoderNode where
  name : String
  subs : List String
deriving DecidableEq, Repr

/-- The dependency resolver's error (`CyclicDependency`, spec §4.4). -/
inductive DepErr where
  | cyclicDependency
deriving DecidableEq, Repr

/-- Look a node up by name in the multi-decoder set. -/
def findNode (nodes : List multiDecoderNode) (n : String) :
    Option multiDecoderNode :=
  nodes.find? (fun nd => nd.name == n)

/-- Modelled from the spec: the depth-first visit of `orderDependencies`
(spec §4.4: "depth-first topological sort; a node currently being visited
that is revisited signals a cycle, which fails with CyclicDependency;
subordinate names that refer to a decoder outside the multi-decoder set are
ignored").  `ip` is the in-progress (currently being visited) stack, `done`
the emitted order; the argument is either one node name to visit (`.inl`) or
a list of names to visit in sequence (`.inr`).  `fuel` is a structural
recursion device; `orderDependencies` supplies enough for any input. -/
def visitD (nodes : List multiDecoderNode) :
    Nat → List String → List String → (String ⊕ List String) →
      Except DepErr (List String)
  | 0, _, _, _ => .error .cyclicDependency
  | fuel + 1, ip, done, .inl n =>
    if done.contains n then .ok done
    else if ip.contains n then .error .cyclicDependency
    else
      match findNode nodes n with
      | none => .ok done
      | some nd =>
        match visitD nodes fuel (n :: ip) done (.inr nd.subs) with
        | .error e => .error e
        | .ok done2 => .ok (done2 ++ [n])
  | _ + 1, _, done, .inr [] => .ok done
  | fuel + 1, ip, done, .inr (x :: xs) =>
    match visitD nodes fuel ip done (.inl x) with
    | .error e => .error e
    | .ok done2 => visitD nodes fuel ip done2 (.inr xs)

/-- A fuel bound that suffices for any acyclic input of this size. -/
def depFuel (nodes : List multiDecoderNode) : Nat :=
  (nodes.length + 1) *
    (nodes.foldl (fun a nd => a + nd.subs.length + 1) 1 + 1)

/-- Modelled from the spec: `orderDependencies` (spec §4.4) — reorder the
multi-decoder set so that every subordinate inside the set appears earlier
than its referrer, failing with `CyclicDependency` on a cycle.  Returns the
ordered node names. -/
def orderDependencies (nodes : List multiDecoderNode) :
    Except DepErr (List String) :=
  visitD nodes (depFuel nodes) [] [] (.inr (nodes.map (fun nd => nd.name)))

/-- The method `LoadFromConfigFile` (config.go lines 938-1092), reduced to the maker
registration order it produces: file makers by category (MultiDecoders
segregated), synthesize the protobuf defaults, resolve the MultiDecoder
dependency order, append the resolved MultiDecoders to the tail of the
Decoder list, then register category by category in the fixed order Decoder,
Encoder, Input, Filter, Output.  Error accumulation (`errcnt`), `PrepConfig`
and runner construction do not affect this registration order and are
modelled elsewhere; a dependency-resolution error aborts the load before any
registration, as in the source. -/
def loadFromConfigFile (registry : List String) (cfg : List ConfigSection) :
    Except DepErr (List LoadedMaker) :=
  let mbc := addProtobufDefaults registry (preload registry cfg)
  let nodes := mbc.multis.map (fun m => multiDecoderNode.mk m.name m.subs)
  match orderDependencies nodes with
  | .error e => .error e
  | .ok names =>
    let orderedMultis :=
      names.filterMap (fun n => mbc.multis.find? (fun m => m.name == n))
    .ok ((mbc.decoders ++ orderedMultis) ++ mbc.encoders ++ mbc.inputs ++
      mbc.filters ++ mbc.outputs)

/-- Position of a category in the fixed load order
`["Decoder", "Encoder", "Input", "Filter", "Output"]`. -/
def catIdx (category : String) : Nat :=
  if category = "Decoder" then 0
  else if category = "Encoder" then 1
  else if category = "Input" then 2
  else if category = "Filter" then 3
  else if category = "Output" then 4
  else 5

/-- Index of the first occurrence of a string in a list (the list length when
absent). -/
def idxOf (a : String) : List String → Nat
  | [] => 0
  | x :: xs => if x == a then 0 else idxOf a xs + 1

/-- The topological-order invariant: every subordinate of an emitted node
that itself belongs to the node set is emitted earlier. -/
def depOk (nodes : List multiDecoderNode) (l : List String) : Prop :=
  ∀ n ∈ l, ∀ nd, findNode nodes n = some nd →
    ∀ s ∈ nd.subs, (findNode nodes s).isSome →
      s ∈ l ∧ idxOf s l < idxOf n l

/-- Category invariant of a `makersByCategory` map. -/
def MBCInv (mbc : MakersByCategory) : Prop :=
  (∀ m ∈ mbc.decoders, m.category = "Decoder" ∧ m.typ ≠ "MultiDecoder") ∧
  (∀ m ∈ mbc.encoders, m.category = "Encoder") ∧
  (∀ m ∈ mbc.inputs, m.category = "Input") ∧
  (∀ m ∈ mbc.filters, m.category = "Filter") ∧
  (∀ m ∈ mbc.outputs, m.category = "Output") ∧
  (∀ m ∈ mbc.multis, m.typ = "MultiDecoder" ∧ m.category = "Decoder")

/-- All makers filed in a `makersByCategory` map. -/
def mbcAll (mbc : MakersByCategory) : List LoadedMaker :=
  mbc.decoders ++ mbc.encoders ++ mbc.inputs ++ mbc.filters ++ mbc.outputs ++
    mbc.multis

/-- A registry for the C1 witness. -/
def regEx : List String := ["MultiDecoder", "ProtobufDecoder", "ProtobufEncoder"]

/-- A config declaring Multi-Decoder `A` with subordinate `B` and
Multi-Decoder `B` with no subordinates. -/
def cfgEx : List ConfigSection :=
  [{ name := "A", typ := "MultiDecoder", subs := ["B"] },
   { name := "B", typ := "MultiDecoder", subs := [] }]

/-- The registration order `loadFromConfigFile` produces for `cfgEx`:
the default protobuf decoder, then `B` before `A` (dependency order), then
the default protobuf encoder. -/
def orderEx : List LoadedMaker :=
  [{ name := "ProtobufDecoder", typ := "ProtobufDecoder",
     category := "Decoder", subs := [] },
   { name := "B", typ := "MultiDecoder", category := "Decoder", subs := [] },
   { name := "A", typ := "MultiDecoder", category := "Decoder", subs := ["B"] },
   { name := "ProtobufEncoder", typ := "ProtobufEncoder",
     category := "Encoder", subs := [] }]

theorem readUntil_some_length {c : Char} :
    ∀ {l a b : List Char}, readUntil c l = some (a, b) →
      l.length = a.length + b.length + 1 := by
  intro l
  induction l with
  | nil => intro a b h; simp [readUntil] at h
  | cons x xs ih =>
    intro a b h
    simp only [readUntil] at h
    by_cases hx : x = c
    · rw [if_pos hx] at h
      obtain ⟨ha, hb⟩ := Prod.mk.injEq .. ▸ Option.some.injEq .. ▸ h
      simp [← ha, ← hb]
    · rw [if_neg hx] at h
      cases hr : readUntil c xs with
      | none => rw [hr] at h; simp at h
      | some p =>
        obtain ⟨a', b'⟩ := p
        rw [hr] at h
        simp only [Option.some.injEq, Prod.mk.injEq] at h
        obtain ⟨ha, hb⟩ := h
        have hl := ih hr
        simp [← ha, ← hb, hl]
        omega

theorem readUntil_append {c : Char} :
    ∀ {a : List Char}, c ∉ a → ∀ (b : List Char),
      readUntil c (a ++ c :: b) = some (a, b) := by
  intro a
  induction a with
  | nil => intro _ b; simp [readUntil]
  | cons x xs ih =>
    intro hc b
    have hx : x ≠ c := fun h => hc (by simp [h])
    have hxs : c ∉ xs := fun h => hc (by simp [h])
    simp [readUntil, hx, ih hxs b]

theorem readUntil_none {c : Char} :
    ∀ {l : List Char}, c ∉ l → readUntil c l = none := by
  intro l
  induction l with
  | nil => intro _; simp [readUntil]
  | cons x xs ih =>
    intro hc
    have hx : x ≠ c := fun h => hc (by simp [h])
    have hxs : c ∉ xs := fun h => hc (by simp [h])
    simp [readUntil, hx, ih hxs]

theorem isPrefixOf_append_right {pat l : List Char} (l' : List Char)
    (h : pat.isPrefixOf l = true) : pat.isPrefixOf (l ++ l') = true := by
  induction pat generalizing l with
  | nil => simp [List.isPrefixOf]
  | cons p ps ih =>
    cases l with
    | nil => simp [List.isPrefixOf] at h
    | cons x xs =>
      simp only [List.cons_append, List.isPrefixOf, Bool.and_eq_true] at h ⊢
      exact ⟨h.1, ih h.2⟩

theorem containsSeq_nil_left : ∀ l : List Char, containsSeq [] l = true := by
  intro l; cases l <;> simp [containsSeq, List.isPrefixOf]

theorem containsSeq_append_right {pat l : List Char} (l' : List Char)
    (h : containsSeq pat l = true) : containsSeq pat (l ++ l') = true := by
  induction l with
  | nil =>
    have hp : pat = [] := by
      cases pat with
      | nil => rfl
      | cons p ps => simp [containsSeq, List.isPrefixOf] at h
    subst hp
    exact containsSeq_nil_left _
  | cons x xs ih =>
    simp only [containsSeq, Bool.or_eq_true] at h
    rcases h with h | h
    · simp only [List.cons_append, containsSeq, Bool.or_eq_true]
      exact Or.inl (isPrefixOf_append_right l' h)
    · simp only [List.cons_append, containsSeq, Bool.or_eq_true]
      exact Or.inr (ih h)

theorem envSubGo_irrel (env : String → String) :
    ∀ (f1 : Nat) {l : List Char} (f2 : Nat), l.length ≤ f1 → l.length ≤ f2 →
      envSubGo env f1 l = envSubGo env f2 l := by
  intro f1
  induction f1 with
  | zero =>
    intro l f2 h1 _
    have hl : l = [] := List.eq_nil_of_length_eq_zero (Nat.le_zero.mp h1)
    subst hl
    cases f2 <;> simp [envSubGo, readUntil]
  | succ f ih =>
    intro l f2 h1 h2
    cases f2 with
    | zero =>
      have hl : l = [] := List.eq_nil_of_length_eq_zero (Nat.le_zero.mp h2)
      subst hl
      simp [envSubGo, readUntil]
    | succ g =>
      simp only [envSubGo]
      cases hr : readUntil '%' l with
      | none => rfl
      | some p =>
        obtain ⟨pre, rest⟩ := p
        dsimp only
        have hlen := readUntil_some_length hr
        have e1 : envSubGo env f rest = envSubGo env g rest :=
          ih g (by omega) (by omega)
        cases hr2 : readUntil ']' (rest.drop 4) with
        | none => rw [e1]
        | some q =>
          obtain ⟨name, rest2⟩ := q
          dsimp only
          have hlen2 := readUntil_some_length hr2
          have hd : (rest.drop 4).length = rest.length - 4 := by simp
          have e2 : envSubGo env f rest2 = envSubGo env g rest2 :=
            ih g (by omega) (by omega)
          rw [e1, e2]

theorem envSubGo_eq (env : String → String) {fuel : Nat} {l : List Char}
    (h : l.length ≤ fuel) : envSubGo env fuel l = envSub env l :=
  envSubGo_irrel env fuel l.length h (Nat.le_refl _)

theorem envSub_split (env : String → String) (pre rest : List Char) (hpre : '%' ∉ pre) :
    envSub env (pre ++ '%' :: rest) =
      if rest.take 4 = ['E', 'N', 'V', '['] then
        match readUntil ']' (rest.drop 4) with
        | none => .error .missingCloseDelim
        | some (name, rest2) =>
          if (name ++ [']']).any (fun c => invalidEnvChars.contains c) ||
              containsSeq nestedEnvToken (name ++ [']']) then
            .error .invalidChars
          else
            match envSub env rest2 with
            | .error e => .error e
            | .ok out => .ok (pre ++ (env (String.mk name)).data ++ out)
      else if rest.length < 4 then .ok (pre ++ '%' :: rest)
      else
        match envSub env rest with
        | .error e => .error e
        | .ok out => .ok (pre ++ '%' :: out) := by
  have hlen : (pre ++ '%' :: rest).length = (pre.length + rest.length) + 1 := by
    simp [List.length_append]
    omega
  rw [envSub, hlen]
  simp only [envSubGo, readUntil_append hpre]
  by_cases h4 : rest.take 4 = ['E', 'N', 'V', '[']
  · simp only [if_pos h4]
    cases hr2 : readUntil ']' (rest.drop 4) with
    | none => rfl
    | some q =>
      obtain ⟨name, rest2⟩ := q
      dsimp only
      have hlen2 := readUntil_some_length hr2
      have hd : (rest.drop 4).length = rest.length - 4 := by simp
      have e2 : envSubGo env (pre.length + rest.length) rest2 = envSub env rest2 :=
        envSubGo_eq env (by omega)
      rw [e2]
  · simp only [if_neg h4]
    by_cases hl4 : rest.length < 4
    · simp only [if_pos hl4]
    · simp only [if_neg hl4]
      have e1 : envSubGo env (pre.length + rest.length) rest = envSub env rest :=
        envSubGo_eq env (by omega)
      rw [e1]

/-- C7: for every input text, the environment-substitution preprocessor
replaces each substring of the form `%ENV[X]` by the current value of
environment variable `X` (the empty string if `X` is unset), passes through
literally every `%` character not immediately followed by `ENV[`, and performs
no recursive expansion on substituted values: the substituted value is
emitted verbatim and scanning resumes after the closing `]` only.  The four
conjuncts characterize the scan: text without `%` is copied; a `%` not
followed by `ENV[` is emitted literally (with the tail rescanned, or, within
4 characters of end of input, flushed as-is); a valid `%ENV[name]` token is
replaced by `env name` with the scan continuing after the token. -/
theorem C7_env_substitution (env : String → String) :
    (∀ l : List Char, '%' ∉ l → envSub env l = .ok l) ∧
    (∀ pre rest : List Char, '%' ∉ pre → rest.take 4 ≠ ['E', 'N', 'V', '['] →
      4 ≤ rest.length →
      envSub env (pre ++ '%' :: rest) =
        (envSub env rest).map (fun out => pre ++ '%' :: out)) ∧
    (∀ pre rest : List Char, '%' ∉ pre → rest.take 4 ≠ ['E', 'N', 'V', '['] →
      rest.length < 4 →
      envSub env (pre ++ '%' :: rest) = .ok (pre ++ '%' :: rest)) ∧
    (∀ pre name tail : List Char, '%' ∉ pre → ']' ∉ name →
      ((name ++ [']']).any (fun c => invalidEnvChars.contains c) ||
        containsSeq nestedEnvToken (name ++ [']'])) = false →
      envSub env (pre ++ '%' :: ('E' :: 'N' :: 'V' :: '[' :: (name ++ ']' :: tail))) =
        (envSub env tail).map
          (fun out => pre ++ (env (String.mk name)).data ++ out)) := by
  refine ⟨?_, ?_, ?_, ?_⟩
  · intro l hl
    cases l with
    | nil => rfl
    | cons x xs =>
      show envSubGo env (x :: xs).length (x :: xs) = .ok (x :: xs)
      rw [List.length_cons]
      simp only [envSubGo, readUntil_none hl]
  · intro pre rest hpre h4 hge
    rw [envSub_split env pre rest hpre]
    simp only [if_neg h4, if_neg (Nat.not_lt.mpr hge)]
    cases envSub env rest <;> simp [Except.map]
  · intro pre rest hpre h4 hlt
    rw [envSub_split env pre rest hpre]
    simp only [if_neg h4, if_pos hlt]
  · intro pre name tail hpre hname hok
    rw [envSub_split env pre ('E' :: 'N' :: 'V' :: '[' :: (name ++ ']' :: tail)) hpre]
    have h4 : ('E' :: 'N' :: 'V' :: '[' :: (name ++ ']' :: tail)).take 4 =
        ['E', 'N', 'V', '['] := by simp
    have hdrop : ('E' :: 'N' :: 'V' :: '[' :: (name ++ ']' :: tail)).drop 4 =
        name ++ ']' :: tail := by simp
    rw [if_pos h4, hdrop, readUntil_append hname tail]
    dsimp only
    rw [hok]
    simp only [Bool.false_eq_true, if_false]
    cases envSub env tail <;> simp [Except.map]

/-- C7 witness: substituting in the concrete text `%ENV[X]y` with `X` set to
`val` yields `valy`. -/
theorem C7_env_substitution_witness :
    envSub envEx ['%', 'E', 'N', 'V', '[', 'X', ']', 'y'] =
      .ok ['v', 'a', 'l', 'y'] := by
  have h := (C7_env_substitution envEx).2.2.2 [] ['X'] ['y']
    (by decide) (by decide) (by decide)
  simp only [List.nil_append] at h
  have h2 : envSub envEx ['y'] = .ok ['y'] := rfl
  rw [h2] at h
  exact h.trans rfl

/-- C8: the environment-substitution preprocessor fails with the
missing-delimiter error whenever an opening `%ENV[` is never closed by `]`
before end of input, and fails with the invalid-variable-name error whenever
the captured variable name contains whitespace (space, tab, carriage return,
newline) or a nested `%ENV[`. -/
theorem C8_env_errors (env : String → String) :
    (∀ pre tail : List Char, '%' ∉ pre → ']' ∉ tail →
      envSub env (pre ++ '%' :: ('E' :: 'N' :: 'V' :: '[' :: tail)) =
        .error .missingCloseDelim) ∧
    (∀ pre name tail : List Char, '%' ∉ pre → ']' ∉ name →
      ((∃ c ∈ name, c ∈ invalidEnvChars) ∨ containsSeq nestedEnvToken name = true) →
      envSub env (pre ++ '%' :: ('E' :: 'N' :: 'V' :: '[' :: (name ++ ']' :: tail))) =
        .error .invalidChars) := by
  constructor
  · intro pre tail hpre htail
    rw [envSub_split env pre ('E' :: 'N' :: 'V' :: '[' :: tail) hpre]
    have h4 : ('E' :: 'N' :: 'V' :: '[' :: tail).take 4 = ['E', 'N', 'V', '['] := by
      simp
    have hdrop : ('E' :: 'N' :: 'V' :: '[' :: tail).drop 4 = tail := by simp
    rw [if_pos h4, hdrop, readUntil_none htail]
  · intro pre name tail hpre hname hbad
    rw [envSub_split env pre ('E' :: 'N' :: 'V' :: '[' :: (name ++ ']' :: tail)) hpre]
    have h4 : ('E' :: 'N' :: 'V' :: '[' :: (name ++ ']' :: tail)).take 4 =
        ['E', 'N', 'V', '['] := by simp
    have hdrop : ('E' :: 'N' :: 'V' :: '[' :: (name ++ ']' :: tail)).drop 4 =
        name ++ ']' :: tail := by simp
    rw [if_pos h4, hdrop, readUntil_append hname tail]
    dsimp only
    have hcheck : ((name ++ [']']).any (fun c => invalidEnvChars.contains c) ||
        containsSeq nestedEnvToken (name ++ [']'])) = true := by
      rcases hbad with ⟨c, hc, hcinv⟩ | hseq
      · apply Bool.or_eq_true_iff.mpr
        left
        apply List.any_eq_true.mpr
        exact ⟨c, List.mem_append_left _ hc, by simpa [invalidEnvChars] using hcinv⟩
      · apply Bool.or_eq_true_iff.mpr
        right
        exact containsSeq_append_right [']'] hseq
    rw [hcheck]
    simp

/-- C8 witness: the unterminated text `%ENV[A` yields the missing-delimiter
error, and the name `a b` (containing a space) yields the invalid-name
error. -/
theorem C8_env_errors_witness :
    envSub envEx ['%', 'E', 'N', 'V', '[', 'A'] = .error .missingCloseDelim ∧
    envSub envEx ['%', 'E', 'N', 'V', '[', 'a', ' ', ']'] = .error .invalidChars := by
  constructor
  · exact (C8_env_errors envEx).1 [] ['A'] (by decide) (by decide)
  · exact (C8_env_errors envEx).2 [] ['a', ' '] [] (by decide) (by decide)
      (Or.inl ⟨' ', by decide, by decide⟩)

theorem prepAlloc_plugin_none {s : MakerState} (hp : s.plugin = none) :
    (prepAlloc s).plugin = some { id := s.nextId } ∧
    (prepAlloc s).nextId = s.nextId + 1 := by
  have hiso : s.plugin.isNone = true := by simp [hp]
  by_cases h1 : s.configStruct.isNone <;>
    by_cases h2 : s.hasConfigStruct <;>
    simp [prepAlloc, makeConfig, makePlugin, h1, h2, hiso]

theorem prepAlloc_plugin_some {s : MakerState} {q : Plugin}
    (hp : s.plugin = some q) :
    (prepAlloc s).plugin = some q ∧ (prepAlloc s).nextId = s.nextId := by
  have hiso : s.plugin.isNone = false := by simp [hp]
  by_cases h1 : s.configStruct.isNone <;>
    by_cases h2 : s.hasConfigStruct <;>
    simp [prepAlloc, makeConfig, makePlugin, h1, h2, hiso, hp]

theorem prepAlloc_frame (s : MakerState) :
    (prepAlloc s).name = s.name ∧ (prepAlloc s).category = s.category ∧
    (prepAlloc s).sectionKeys = s.sectionKeys ∧
    (prepAlloc s).hasConfigStruct = s.hasConfigStruct ∧
    (prepAlloc s).schemaKeys = s.schemaKeys ∧
    (prepAlloc s).configPrepped = s.configPrepped := by
  by_cases h1 : s.configStruct.isNone <;>
    by_cases h2 : s.plugin.isNone <;>
    by_cases h3 : s.hasConfigStruct <;>
    simp [prepAlloc, makeConfig, makePlugin, h1, h2, h3]

theorem PrepConfig_prepped {s : MakerState} (h : s.configPrepped = true) :
    PrepConfig s = (.ok (), s) := by
  simp [PrepConfig, h]

theorem PrepConfig_state_plugin {s : MakerState} (hc : s.configPrepped = false) :
    (PrepConfig s).2.plugin = (prepAlloc s).plugin ∧
    (PrepConfig s).2.nextId = (prepAlloc s).nextId := by
  simp only [PrepConfig, hc, Bool.false_eq_true, if_false]
  by_cases h3 : (prepAlloc s).hasConfigStruct
  · simp only [h3, Bool.not_true, Bool.false_eq_true, if_false]
    cases hk : firstUnknownKey (prepAlloc s).sectionKeys (prepAlloc s).schemaKeys
        (hekaParams (prepAlloc s).category) <;> simp [hk]
  · have h3' : (prepAlloc s).hasConfigStruct = false := by
      simpa using h3
    simp [h3']

theorem MakeCore_ok_none {initOk : Option ConfigData → Bool} {s : MakerState}
    {p : Plugin} {s' : MakerState} (hp : s.plugin = none)
    (h : MakeCore initOk s = (.ok p, s')) :
    p = { id := s.nextId } ∧ s'.plugin = none ∧ s'.nextId = s.nextId + 1 := by
  simp only [MakeCore, hp, makePlugin] at h
  split at h
  · obtain ⟨h1, h2⟩ := Prod.mk.injEq .. ▸ h
    refine ⟨(Except.ok.injEq .. ▸ h1).symm, ?_, ?_⟩ <;> simp [← h2, hp]
  · simp at h

theorem MakeCore_ok_some {initOk : Option ConfigData → Bool} {s : MakerState}
    {q p : Plugin} {s' : MakerState} (hp : s.plugin = some q)
    (h : MakeCore initOk s = (.ok p, s')) :
    p = q ∧ s'.plugin = none ∧ s'.nextId = s.nextId := by
  simp only [MakeCore, hp] at h
  split at h
  · obtain ⟨h1, h2⟩ := Prod.mk.injEq .. ▸ h
    refine ⟨(Except.ok.injEq .. ▸ h1).symm, ?_, ?_⟩ <;> simp [← h2]
  · simp at h

theorem Make_ok_spec {initOk : Option ConfigData → Bool} {s : MakerState}
    {p : Plugin} {s' : MakerState}
    (hwf : ∀ q, s.plugin = some q → q.id < s.nextId)
    (h : Make initOk s = (.ok p, s')) :
    s'.plugin = none ∧ p.id < s'.nextId ∧ s.nextId ≤ s'.nextId ∧
    (s.plugin = none → s.nextId ≤ p.id) ∧
    (∀ q, s.plugin = some q → p = q) := by
  by_cases hc : s.configPrepped = true
  · have hM : MakeCore initOk s = (.ok p, s') := by
      simpa [Make, hc] using h
    cases hp : s.plugin with
    | none =>
      obtain ⟨hp1, hs1, hs2⟩ := MakeCore_ok_none hp hM
      refine ⟨hs1, ?_, ?_, ?_, ?_⟩
      · simp [hp1, hs2]
      · simp [hs2]
      · intro _; simp [hp1]
      · intro q hq; simp [hp] at hq
    | some q =>
      obtain ⟨hp1, hs1, hs2⟩ := MakeCore_ok_some hp hM
      refine ⟨hs1, ?_, ?_, ?_, ?_⟩
      · rw [hp1, hs2]; exact hwf q hp
      · simp [hs2]
      · intro hnone; simp [hp] at hnone
      · intro q' hq'
        cases hq'
        exact hp1
  · have hc' : s.configPrepped = false := by simpa using hc
    have hM0 : Make initOk s =
        (match PrepConfig s with
         | (.error e, s0) => (.error (.prepFailed e), s0)
         | (.ok _, s0) => MakeCore initOk s0) := by
      simp [Make, hc']
    rw [hM0] at h
    cases hP : PrepConfig s with
    | mk r s0 =>
      rw [hP] at h
      cases r with
      | error e => simp at h
      | ok u =>
        have hpl := PrepConfig_state_plugin hc'
        rw [hP] at hpl
        cases hp : s.plugin with
        | none =>
          obtain ⟨ha1, ha2⟩ := prepAlloc_plugin_none hp
          have hs0p : s0.plugin = some { id := s.nextId } := by
            rw [← ha1]; exact hpl.1.symm ▸ rfl
          have hs0n : s0.nextId = s.nextId + 1 := by
            rw [← ha2]; exact hpl.2.symm ▸ rfl
          obtain ⟨hp1, hs1, hs2⟩ := MakeCore_ok_some hs0p h
          refine ⟨hs1, ?_, ?_, ?_, ?_⟩
          · simp [hp1, hs2, hs0n]
          · simp [hs2, hs0n]
          · intro _; simp [hp1]
          · intro q hq; simp [hp] at hq
        | some q =>
          obtain ⟨ha1, ha2⟩ := prepAlloc_plugin_some hp
          have hs0p : s0.plugin = some q := by
            rw [← ha1]; exact hpl.1.symm ▸ rfl
          have hs0n : s0.nextId = s.nextId := by
            rw [← ha2]; exact hpl.2.symm ▸ rfl
          obtain ⟨hp1, hs1, hs2⟩ := MakeCore_ok_some hs0p h
          refine ⟨hs1, ?_, ?_, ?_, ?_⟩
          · rw [hp1, hs2, hs0n]; exact hwf q hp
          · simp [hs2, hs0n]
          · intro hnone; simp [hp] at hnone
          · intro q' hq'
            cases hq'
            exact hp1

/-- C2 counterexample: at loop count `2^64 - 1` (with maximum 4) the
increment `msgLoopCount++` wraps the Go `uint` to 0, so the method returns a
pack even though `n + 1` exceeds the configured maximum: the claim's "returns
nil if and only if n + 1 exceeds the maximum" fails at this input. -/
theorem C2_counterexample :
    UINT_MOD - 1 + 1 > 4 ∧
    pipelinePack 4 "host" 1 0 [] packEx (UINT_MOD - 1) ≠ none := by
  constructor
  · simp [UINT_MOD]
  · have hm : (UINT_MOD - 1 + 1) % UINT_MOD = 0 := by simp [UINT_MOD]
    simp [pipelinePack, hm]

/-- C2 (amended): for every loop count `n` with `n + 1 < 2^64` (no `uint`
wraparound), `PipelinePack(n)` returns nil if and only if `n + 1` exceeds the
configured maximum message loops; otherwise the returned envelope's
`MsgLoopCount` equals `n + 1` and its UUID, timestamp, hostname and process
id fields are freshly populated (and its reference count is reset to 1). -/
theorem C2_pipelinepack (maxMsgLoops : Nat) (hostname : String) (pid now : Int)
    (newUuid : List Nat) (recycled : PPack) (n : Nat) (hn : n + 1 < UINT_MOD) :
    (pipelinePack maxMsgLoops hostname pid now newUuid recycled n = none ↔
      n + 1 > maxMsgLoops) ∧
    (∀ p, pipelinePack maxMsgLoops hostname pid now newUuid recycled n = some p →
      p.msgLoopCount = n + 1 ∧ p.message.uuid = newUuid ∧
      p.message.timestamp = now ∧ p.message.hostname = hostname ∧
      p.message.pid = pid ∧ p.refCount = 1) := by
  have hmod : (n + 1) % UINT_MOD = n + 1 := Nat.mod_eq_of_lt hn
  by_cases h : n + 1 > maxMsgLoops
  · constructor
    · simp [pipelinePack, hmod, h]
    · intro p hp
      simp [pipelinePack, hmod, h] at hp
  · constructor
    · simp [pipelinePack, hmod, h]
    · intro p hp
      simp only [pipelinePack, hmod] at hp
      rw [if_neg (by omega)] at hp
      cases hp
      exact ⟨rfl, rfl, rfl, rfl, rfl, rfl⟩

/-- C2 witness: at loop count 0 with maximum 4, a pack is returned with loop
count 1 and fresh identity fields. -/
theorem C2_pipelinepack_witness :
    (pipelinePack 4 "host" 1 99 [3] packEx 0 = none ↔ 0 + 1 > 4) ∧
    (∀ p, pipelinePack 4 "host" 1 99 [3] packEx 0 = some p →
      p.msgLoopCount = 0 + 1 ∧ p.message.uuid = [3] ∧
      p.message.timestamp = 99 ∧ p.message.hostname = "host" ∧
      p.message.pid = 1 ∧ p.refCount = 1) :=
  C2_pipelinepack 4 "host" 1 99 [3] packEx 0 (by simp [UINT_MOD])

/-- C3: for every maker, two consecutive successful `Make()` calls never
return the same plugin instance (the ghost allocation ids differ): a cached
pre-created instance, if present, is returned by the first call and the cache
is cleared (the post-call state holds no cached plugin), so the second call
constructs a brand-new instance.  The well-formedness hypothesis says the
cached instance, if any, was allocated below the allocation counter, which
holds in every reachable maker state. -/
theorem C3_make_fresh_instances (initOk : Option ConfigData → Bool)
    (s : MakerState) (p1 : Plugin) (s1 : MakerState) (p2 : Plugin)
    (s2 : MakerState)
    (hwf : ∀ q, s.plugin = some q → q.id < s.nextId)
    (h1 : Make initOk s = (.ok p1, s1))
    (h2 : Make initOk s1 = (.ok p2, s2)) :
    p1.id ≠ p2.id ∧ s1.plugin = none ∧
    (∀ q, s.plugin = some q → p1 = q) := by
  obtain ⟨hs1p, hp1lt, _, _, hcached⟩ := Make_ok_spec hwf h1
  have hwf1 : ∀ q, s1.plugin = some q → q.id < s1.nextId := by
    intro q hq; rw [hs1p] at hq; cases hq
  obtain ⟨_, _, _, hfresh, _⟩ := Make_ok_spec hwf1 h2
  have hge : s1.nextId ≤ p2.id := hfresh hs1p
  exact ⟨by omega, hs1p, hcached⟩

/-- C3 witness: a concrete maker run twice; the first call returns the
instance cached by config preparation (allocation id 0), the second a fresh
instance (allocation id 1). -/
theorem C3_make_fresh_instances_witness :
    (Plugin.mk 0).id ≠ (Plugin.mk 1).id ∧ mkS1.plugin = none ∧
    (∀ q, mkS0.plugin = some q → Plugin.mk 0 = q) :=
  C3_make_fresh_instances initAlwaysOk mkS0 (Plugin.mk 0) mkS1 (Plugin.mk 1)
    mkS2 (by intro q hq; simp [mkS0] at hq) rfl rfl

/-- C4: for a plugin that declares a type-specific configuration schema,
`PrepConfig` fails with the unknown-config-key error naming an offending key
whenever the section contains a key that is neither a field of the schema nor
one of the already-consumed common/category-common keys (and succeeds when
every key is recognized); for a plugin with no type-specific schema, decoding
is permissive and unknown keys are legal (`PrepConfig` succeeds). -/
theorem C4_unknown_config_key (s : MakerState) :
    (s.hasConfigStruct = true → s.configPrepped = false →
      (∃ k ∈ s.sectionKeys, s.schemaKeys.contains k = false ∧
        (hekaParams s.category).contains k = false) →
      ∃ k, (PrepConfig s).1 = .error (.unknownConfigSetting s.name k) ∧
        k ∈ s.sectionKeys ∧ s.schemaKeys.contains k = false ∧
        (hekaParams s.category).contains k = false) ∧
    (s.hasConfigStruct = true →
      (∀ k ∈ s.sectionKeys, s.schemaKeys.contains k = true ∨
        (hekaParams s.category).contains k = true) →
      (PrepConfig s).1 = .ok ()) ∧
    (s.hasConfigStruct = false → (PrepConfig s).1 = .ok ()) := by
  obtain ⟨hfn, hfc, hfs, hfh, hfk, _⟩ := prepAlloc_frame s
  refine ⟨?_, ?_, ?_⟩
  · intro hstruct hc hbad
    have hsome : (firstUnknownKey s.sectionKeys s.schemaKeys
        (hekaParams s.category)).isSome := by
      rw [firstUnknownKey, List.find?_isSome]
      obtain ⟨k, hk, h1, h2⟩ := hbad
      refine ⟨k, hk, ?_⟩
      simp only [Bool.not_eq_true', Bool.or_eq_false_iff]
      exact ⟨h1, h2⟩
    obtain ⟨k, hk⟩ := Option.isSome_iff_exists.mp hsome
    have hkmem := List.mem_of_find?_eq_some hk
    have hkpred := List.find?_some hk
    have hk1 : s.schemaKeys.contains k = false := by
      revert hkpred; cases hcon : s.schemaKeys.contains k <;> simp [hcon]
    have hk2 : (hekaParams s.category).contains k = false := by
      revert hkpred
      cases hcon : (hekaParams s.category).contains k <;> simp [hcon]
    refine ⟨k, ?_, hkmem, hk1, hk2⟩
    simp only [PrepConfig, hc, Bool.false_eq_true, if_false]
    have hhs : (prepAlloc s).hasConfigStruct = true := by rw [hfh]; exact hstruct
    simp only [hhs, Bool.not_true, Bool.false_eq_true, if_false]
    rw [hfs, hfk, hfc, hk, hfn]
  · intro hstruct hgood
    by_cases hc : s.configPrepped = true
    · simp [PrepConfig_prepped hc]
    · have hc' : s.configPrepped = false := by simpa using hc
      have hnone : firstUnknownKey s.sectionKeys s.schemaKeys
          (hekaParams s.category) = none := by
        rw [firstUnknownKey, List.find?_eq_none]
        intro k hk
        rcases hgood k hk with h | h
        · have h' : k ∈ s.schemaKeys := by simpa using h
          simp [h']
        · have h' : k ∈ hekaParams s.category := by simpa using h
          simp [h']
      simp only [PrepConfig, hc', Bool.false_eq_true, if_false]
      have hhs : (prepAlloc s).hasConfigStruct = true := by rw [hfh]; exact hstruct
      simp only [hhs, Bool.not_true, Bool.false_eq_true, if_false]
      rw [hfs, hfk, hfc, hnone]
  · intro hstruct
    by_cases hc : s.configPrepped = true
    · simp [PrepConfig_prepped hc]
    · have hc' : s.configPrepped = false := by simpa using hc
      simp only [PrepConfig, hc', Bool.false_eq_true, if_false]
      have hhs : (prepAlloc s).hasConfigStruct = false := by
        rw [hfh]; exact hstruct
      simp [hhs]

/-- C4 witness: the section `["rate", "bogus"]` against the schema `["rate"]`
fails naming `bogus`; the claim's error and success paths are both
exercised. -/
theorem C4_unknown_config_key_witness :
    ∃ k, (PrepConfig mkBadKey).1 = .error (.unknownConfigSetting mkBadKey.name k) ∧
      k ∈ mkBadKey.sectionKeys ∧ mkBadKey.schemaKeys.contains k = false ∧
      (hekaParams mkBadKey.category).contains k = false :=
  (C4_unknown_config_key mkBadKey).1 rfl rfl
    ⟨"bogus", by decide, by decide, by decide⟩

/-- C5: `PrepConfig` is idempotent: once a maker's config has been
successfully prepared (`configPrepped` is true), every call to `PrepConfig`
returns success without error and leaves the whole maker state, in particular
the decoded config struct, unchanged. -/
theorem C5_prepconfig_idempotent (s : MakerState) (h : s.configPrepped = true) :
    PrepConfig s = (.ok (), s) := by
  simp [PrepConfig, h]

/-- C5 witness: a concrete prepped maker is returned unchanged. -/
theorem C5_prepconfig_idempotent_witness :
    PrepConfig mkPrepped = (.ok (), mkPrepped) :=
  C5_prepconfig_idempotent mkPrepped rfl

/-- C6: `RemoveFilterRunner` called while the orchestrator is shutting down
returns false and leaves the whole filter state, in particular the set of
registered `FilterRunners`, unchanged. -/
theorem C6_remove_filter_refused (s : FilterState) (name : String)
    (h : s.shuttingDown = true) :
    RemoveFilterRunner s name = (false, s) := by
  simp [RemoveFilterRunner, h]

/-- C6 witness: removing the registered filter `f` from a shutting-down
orchestrator fails and leaves it registered. -/
theorem C6_remove_filter_refused_witness :
    RemoveFilterRunner fsEx "f" = (false, fsEx) :=
  C6_remove_filter_refused fsEx "f" rfl

/-- C9 counterexample: the `RetryOptions` produced for an Input section that
leaves every field unset has `maxJitter = ""`, not the claimed `"500ms"`:
`getDefaultRetryOptions` never sets `MaxJitter` (the 500ms jitter default is
applied downstream by the retry helper, outside this subsystem). -/
theorem C9_counterexample :
    initialRetries "Input" emptyRetrySection =
      some { maxDelay := "30s", delay := "250ms", maxJitter := "",
             maxRetries := -1 } ∧
    ({ maxDelay := "30s", delay := "250ms", maxJitter := "",
       maxRetries := -1 } : RetryOptions).maxJitter ≠ "500ms" := by
  exact ⟨rfl, by decide⟩

/-- C9 (amended): the default `RetryOptions` produced for every Input, Filter
and Output plugin's category-common config have maxDelay "30s", delay
"250ms" and maxRetries -1 (unlimited) wherever the user's section leaves
those fields unset; maxJitter is left empty (`""`) by this subsystem (the
500ms jitter default is applied later by the retry machinery). -/
theorem C9_retry_defaults (category : String) (sec : RetrySection)
    (r : RetryOptions)
    (hcat : category = "Input" ∨ category = "Filter" ∨ category = "Output")
    (hr : initialRetries category sec = some r) :
    (sec.maxDelayU = none → r.maxDelay = "30s") ∧
    (sec.delayU = none → r.delay = "250ms") ∧
    (sec.maxRetriesU = none → r.maxRetries = -1) ∧
    (sec.maxJitterU = none → r.maxJitter = "") := by
  have hr' : decodeRetry getDefaultRetryOptions sec = r := by
    simpa [initialRetries, hcat] using hr
  subst hr'
  refine ⟨?_, ?_, ?_, ?_⟩ <;>
    (intro hu; simp [decodeRetry, getDefaultRetryOptions, hu])

/-- C9 witness: the amended defaults at a fully-unset Input section. -/
theorem C9_retry_defaults_witness :
    (emptyRetrySection.maxDelayU = none →
      ({ maxDelay := "30s", delay := "250ms", maxJitter := "",
         maxRetries := -1 } : RetryOptions).maxDelay = "30s") ∧
    (emptyRetrySection.delayU = none →
      ({ maxDelay := "30s", delay := "250ms", maxJitter := "",
         maxRetries := -1 } : RetryOptions).delay = "250ms") ∧
    (emptyRetrySection.maxRetriesU = none →
      ({ maxDelay := "30s", delay := "250ms", maxJitter := "",
         maxRetries := -1 } : RetryOptions).maxRetries = -1) ∧
    (emptyRetrySection.maxJitterU = none →
      ({ maxDelay := "30s", delay := "250ms", maxJitter := "",
         maxRetries := -1 } : RetryOptions).maxJitter = "") :=
  C9_retry_defaults "Input" emptyRetrySection _ (Or.inl rfl) rfl

/-- C10: `PipelineConfig.Encoder` returns `ok == false` (`notRegistered`)
exactly when no encoder maker is registered under the base name; when the
maker exists but its `Make()` call fails, the error is only appended to the
message log and the method does not take the `ok == false` return: it
proceeds to run the type assertion on the nil result (modelled as
`panicNilAssertion`). -/
theorem C10_encoder_error_path (initOk : Option ConfigData → Bool)
    (s : EncState) (baseName fullName : String) :
    ((EncoderMethod initOk s baseName fullName).1 = .notRegistered ↔
      lookupA s.encoderMakers baseName = none) ∧
    (∀ mk, lookupA s.encoderMakers baseName = some mk →
      ∀ e mk', Make initOk mk = (.error e, mk') →
        (EncoderMethod initOk s baseName fullName).1 = .panicNilAssertion ∧
        (EncoderMethod initOk s baseName fullName).2.logMsgs =
          s.logMsgs ++ [encoderErrMsg fullName e]) := by
  cases hl : lookupA s.encoderMakers baseName with
  | none =>
    constructor
    · simp [EncoderMethod, hl]
    · intro mk hmk; cases hmk
  | some mk =>
    constructor
    · cases hM : Make initOk mk with
      | mk r mk2 =>
        cases r <;> simp [EncoderMethod, hl, hM]
    · intro mk0 hmk e mk' hme
      cases hmk
      simp [EncoderMethod, hl, hme]

/-- C10 witness: a registered encoder maker whose plugin `Init` always fails;
the method result is the nil type assertion panic, with the error logged, and
the registered-name characterization holds. -/
theorem C10_encoder_error_path_witness :
    (EncoderMethod initAlwaysFails encStateEx "pe" "pe-full").1 =
      .panicNilAssertion ∧
    (EncoderMethod initAlwaysFails encStateEx "pe" "pe-full").2.logMsgs =
      encStateEx.logMsgs ++ [encoderErrMsg "pe-full" (.initFailed "pe")] :=
  (C10_encoder_error_path initAlwaysFails encStateEx "pe" "pe-full").2
    { name := "pe", category := "Encoder", sectionKeys := [],
      hasConfigStruct := false, schemaKeys := [], configStruct := none,
      configPrepped := false, plugin := none, nextId := 0 } rfl
    (.initFailed "pe")
    { name := "pe", category := "Encoder", sectionKeys := [],
      hasConfigStruct := false, schemaKeys := [],
      configStruct := some (.generic []), configPrepped := true,
      plugin := none, nextId := 1 } rfl

theorem idxOf_append_left {a : String} {l : List String} (l' : List String)
    (h : a ∈ l) : idxOf a (l ++ l') = idxOf a l := by
  induction l with
  | nil => simp at h
  | cons x xs ih =>
    by_cases hx : (x == a) = true
    · simp [idxOf, hx]
    · have hmem : a ∈ xs := by
        rcases List.mem_cons.mp h with rfl | h1
        · exact absurd (by simp) hx
        · exact h1
      simp [idxOf, hx, ih hmem]

theorem idxOf_append_self {a : String} {l : List String} (h : a ∉ l) :
    idxOf a (l ++ [a]) = l.length := by
  induction l with
  | nil => simp [idxOf]
  | cons x xs ih =>
    have hx : ¬(x == a) = true := by
      simp only [beq_iff_eq]
      rintro rfl
      exact h (by simp)
    have hxs : a ∉ xs := fun hh => h (by simp [hh])
    simp [idxOf, hx, ih hxs]

theorem idxOf_lt_length {a : String} {l : List String} (h : a ∈ l) :
    idxOf a l < l.length := by
  induction l with
  | nil => simp at h
  | cons x xs ih =>
    by_cases hx : (x == a) = true
    · simp [idxOf, hx]
    · have hmem : a ∈ xs := by
        rcases List.mem_cons.mp h with rfl | h1
        · exact absurd (by simp) hx
        · exact h1
      simp only [idxOf, hx, if_false, List.length_cons]
      exact Nat.succ_lt_succ (ih hmem)

theorem nodup_concat {l : List String} {a : String} (h : l.Nodup)
    (ha : a ∉ l) : (l ++ [a]).Nodup := by
  rw [List.nodup_append]
  refine ⟨h, List.nodup_singleton a, ?_⟩
  exact fun x hx hxa => ha (by rwa [List.mem_singleton.mp hxa] at hx)

theorem visitD_spec (nodes : List multiDecoderNode) :
    ∀ (fuel : Nat) (ip done : List String) (arg : String ⊕ List String)
      (d2 : List String),
      visitD nodes fuel ip done arg = .ok d2 →
      depOk nodes done → done.Nodup → (∀ m ∈ done, m ∉ ip) →
      (∃ suf, d2 = done ++ suf) ∧ depOk nodes d2 ∧ d2.Nodup ∧
      (∀ m ∈ ip, m ∉ d2) ∧
      (∀ x ∈ d2, x ∈ done ∨ (findNode nodes x).isSome = true) ∧
      (∀ n, arg = .inl n → (findNode nodes n).isSome = true → n ∈ d2) ∧
      (∀ ls, arg = .inr ls →
        ∀ x ∈ ls, (findNode nodes x).isSome = true → x ∈ d2) := by
  intro fuel
  induction fuel with
  | zero =>
    intro ip done arg d2 h _ _ _
    simp [visitD] at h
  | succ fuel ih =>
    intro ip done arg d2 h hdep hnd hdisj
    cases arg with
    | inl n =>
      simp only [visitD] at h
      by_cases hdn : done.contains n
      · rw [if_pos hdn] at h
        injection h with h2
        subst h2
        have hn : n ∈ done := by simpa using hdn
        refine ⟨⟨[], by simp⟩, hdep, hnd, ?_, ?_, ?_, ?_⟩
        · exact fun m hm hmd => hdisj m hmd hm
        · exact fun x hx => Or.inl hx
        · intro n' hn' _
          injection hn' with he
          subst he
          exact hn
        · intro ls hls
          simp at hls
      · rw [if_neg hdn] at h
        by_cases hip : ip.contains n
        · rw [if_pos hip] at h
          simp at h
        · rw [if_neg hip] at h
          cases hf : findNode nodes n with
          | none =>
            rw [hf] at h
            dsimp only at h
            injection h with h2
            subst h2
            refine ⟨⟨[], by simp⟩, hdep, hnd, ?_, ?_, ?_, ?_⟩
            · exact fun m hm hmd => hdisj m hmd hm
            · exact fun x hx => Or.inl hx
            · intro n' hn' hsome
              injection hn' with he
              subst he
              rw [hf] at hsome
              simp at hsome
            · intro ls hls
              simp at hls
          | some nd =>
            rw [hf] at h
            dsimp only at h
            cases hin : visitD nodes fuel (n :: ip) done (.inr nd.subs) with
            | error e =>
              rw [hin] at h
              simp at h
            | ok done2 =>
              rw [hin] at h
              dsimp only at h
              injection h with h2
              subst h2
              have hndone : n ∉ done := by simpa using hdn
              have hnip : n ∉ ip := by simpa using hip
              have hdisj' : ∀ m ∈ done, m ∉ n :: ip := by
                intro m hm
                simp only [List.mem_cons, not_or]
                refine ⟨?_, hdisj m hm⟩
                rintro rfl
                exact hndone hm
              obtain ⟨⟨suf, hsuf⟩, hdep2, hnd2, hip2, hsome2, _, hinr2⟩ :=
                ih (n :: ip) done (.inr nd.subs) done2 hin hdep hnd hdisj'
              have hn2 : n ∉ done2 := hip2 n (by simp)
              have hsubs : ∀ s ∈ nd.subs,
                  (findNode nodes s).isSome = true → s ∈ done2 :=
                hinr2 nd.subs rfl
              refine ⟨⟨suf ++ [n], by rw [hsuf, List.append_assoc]⟩, ?_, ?_,
                ?_, ?_, ?_, ?_⟩
              · intro m hm nd' hnd' s hs hssome
                rcases List.mem_append.mp hm with hm2 | hm2
                · obtain ⟨hsin, hidx⟩ := hdep2 m hm2 nd' hnd' s hs hssome
                  refine ⟨List.mem_append_left _ hsin, ?_⟩
                  rw [idxOf_append_left _ hsin, idxOf_append_left _ hm2]
                  exact hidx
                · have hmn : m = n := by simpa using hm2
                  subst hmn
                  have hnd'' : nd' = nd := by
                    rw [hf] at hnd'
                    injection hnd' with he
                    exact he.symm
                  subst hnd''
                  have hsin : s ∈ done2 := hsubs s hs hssome
                  refine ⟨List.mem_append_left _ hsin, ?_⟩
                  rw [idxOf_append_left _ hsin, idxOf_append_self hn2]
                  exact idxOf_lt_length hsin
              · exact nodup_concat hnd2 hn2
              · intro m hm
                have hm1 : m ∉ done2 := hip2 m (by simp [hm])
                have hmn : m ≠ n := by
                  rintro rfl
                  exact hnip hm
                simp only [List.mem_append, List.mem_singleton, not_or]
                exact ⟨hm1, hmn⟩
              · intro x hx
                rcases List.mem_append.mp hx with hx2 | hx2
                · exact hsome2 x hx2
                · have hxy : x = n := by simpa using hx2
                  subst hxy
                  exact Or.inr (by simp [hf])
              · intro n' hn' _
                injection hn' with he
                subst he
                exact List.mem_append_right _ (by simp)
              · intro ls hls
                simp at hls
    | inr ls =>
      cases ls with
      | nil =>
        simp only [visitD] at h
        injection h with h2
        subst h2
        refine ⟨⟨[], by simp⟩, hdep, hnd, ?_, ?_, ?_, ?_⟩
        · exact fun m hm hmd => hdisj m hmd hm
        · exact fun x hx => Or.inl hx
        · intro n hn
          simp at hn
        · intro ls' hls' x hx
          injection hls' with he
          subst he
          simp at hx
      | cons x xs =>
        simp only [visitD] at h
        cases h1 : visitD nodes fuel ip done (.inl x) with
        | error e =>
          rw [h1] at h
          simp at h
        | ok done1 =>
          rw [h1] at h
          dsimp only at h
          obtain ⟨⟨suf1, hsuf1⟩, hdep1, hnd1, hip1, hsome1, hinl1, _⟩ :=
            ih ip done (.inl x) done1 h1 hdep hnd hdisj
          have hdisj1 : ∀ m ∈ done1, m ∉ ip := by
            intro m hm hmip
            exact hip1 m hmip hm
          obtain ⟨⟨suf2, hsuf2⟩, hdep2, hnd2, hip2, hsome2, _, hinr2⟩ :=
            ih ip done1 (.inr xs) d2 h hdep1 hnd1 hdisj1
          refine ⟨⟨suf1 ++ suf2, by rw [hsuf2, hsuf1, List.append_assoc]⟩,
            hdep2, hnd2, hip2, ?_, ?_, ?_⟩
          · intro y hy
            rcases hsome2 y hy with hy2 | hy2
            · rcases hsome1 y hy2 with h3 | h3
              · exact Or.inl h3
              · exact Or.inr h3
            · exact Or.inr hy2
          · intro n hn
            simp at hn
          · intro ls' hls' y hy hysome
            injection hls' with he
            subst he
            rcases List.mem_cons.mp hy with rfl | hy2
            · have hy1 : y ∈ done1 := hinl1 y rfl hysome
              rw [hsuf2]
              exact List.mem_append_left _ hy1
            · exact hinr2 xs rfl y hy2 hysome

theorem orderDependencies_spec {nodes : List multiDecoderNode}
    {names : List String} (h : orderDependencies nodes = .ok names) :
    depOk nodes names ∧ names.Nodup ∧
    (∀ x ∈ names, (findNode nodes x).isSome = true) ∧
    (∀ nd ∈ nodes, nd.name ∈ names) := by
  rw [orderDependencies] at h
  obtain ⟨_, hdep, hnd, _, hsome, _, hinr⟩ :=
    visitD_spec nodes (depFuel nodes) [] []
      (.inr (nodes.map (fun nd => nd.name))) names h
      (by intro n hn; simp at hn) List.nodup_nil (by intro m hm; simp at hm)
  refine ⟨hdep, hnd, ?_, ?_⟩
  · intro x hx
    rcases hsome x hx with h1 | h1
    · simp at h1
    · exact h1
  · intro nd hnd2
    apply hinr (nodes.map (fun nd => nd.name)) rfl nd.name
      (List.mem_map.mpr ⟨nd, hnd2, rfl⟩)
    rw [findNode, List.find?_isSome]
    exact ⟨nd, hnd2, by simp⟩

theorem forall_mem_concat {α : Type} {P : α → Prop} {l : List α} {a : α}
    (hl : ∀ m ∈ l, P m) (ha : P a) : ∀ m ∈ l ++ [a], P m := by
  intro m hm
  rcases List.mem_append.mp hm with h | h
  · exact hl m h
  · rw [List.mem_singleton.mp h]
    exact ha

theorem getPluginCategory_cases (t : String) :
    getPluginCategory t = "Decoder" ∨ getPluginCategory t = "Encoder" ∨
    getPluginCategory t = "Input" ∨ getPluginCategory t = "Filter" ∨
    getPluginCategory t = "Output" ∨ getPluginCategory t = "" := by
  unfold getPluginCategory
  split_ifs <;> simp

theorem NewPluginMakerM_some {registry : List String} {sec : ConfigSection}
    {mk : LoadedMaker} (h : NewPluginMakerM registry sec = some mk) :
    mk.name = sec.name ∧ mk.subs = sec.subs ∧
    mk.typ = (if sec.typ = "" then sec.name else sec.typ) ∧
    mk.category = getPluginCategory mk.typ ∧ mk.category ≠ "" := by
  unfold NewPluginMakerM at h
  dsimp only at h
  generalize hT : (if sec.typ = "" then sec.name else sec.typ) = t at h ⊢
  by_cases h1 : registry.contains t = true
  · rw [if_pos h1] at h
    by_cases h2 : getPluginCategory t = ""
    · rw [if_pos h2] at h
      cases h
    · rw [if_neg h2] at h
      injection h with he
      subst he
      exact ⟨rfl, rfl, rfl, rfl, h2⟩
  · rw [if_neg h1] at h
    cases h

theorem fileMaker_inv {mbc : MakersByCategory} {mk : LoadedMaker}
    (hm : MBCInv mbc) (hcat : mk.category = getPluginCategory mk.typ)
    (hne : mk.category ≠ "") : MBCInv (fileMaker mbc mk) := by
  obtain ⟨h1, h2, h3, h4, h5, h6⟩ := hm
  unfold fileMaker
  split_ifs with ht hd he hi hf ho
  · have hcd : mk.category = "Decoder" := by
      rw [hcat, ht]
      rfl
    exact ⟨h1, h2, h3, h4, h5, forall_mem_concat h6 ⟨ht, hcd⟩⟩
  · exact ⟨forall_mem_concat h1 ⟨hd, ht⟩, h2, h3, h4, h5, h6⟩
  · exact ⟨h1, forall_mem_concat h2 he, h3, h4, h5, h6⟩
  · exact ⟨h1, h2, forall_mem_concat h3 hi, h4, h5, h6⟩
  · exact ⟨h1, h2, h3, forall_mem_concat h4 hf, h5, h6⟩
  · exact ⟨h1, h2, h3, h4, forall_mem_concat h5 ho, h6⟩
  · exact ⟨h1, h2, h3, h4, h5, h6⟩

theorem fileMaker_multis (mbc : MakersByCategory) (mk : LoadedMaker) :
    (fileMaker mbc mk).multis = mbc.multis ∨
    (fileMaker mbc mk).multis = mbc.multis ++ [mk] := by
  unfold fileMaker
  split_ifs <;> simp

theorem fileMaker_mono (mbc : MakersByCategory) (mk : LoadedMaker) :
    ∀ x ∈ mbcAll mbc, x ∈ mbcAll (fileMaker mbc mk) := by
  intro x hx
  unfold fileMaker
  split_ifs <;> simp only [mbcAll, List.mem_append] at hx ⊢ <;> tauto

theorem fileMaker_self {mbc : MakersByCategory} {mk : LoadedMaker}
    (hcat : mk.category = getPluginCategory mk.typ)
    (hne : mk.category ≠ "") : mk ∈ mbcAll (fileMaker mbc mk) := by
  unfold fileMaker
  split_ifs with ht hd he hi hf ho <;>
    try (simp [mbcAll])
  rcases getPluginCategory_cases mk.typ with hc | hc | hc | hc | hc | hc
  · exact absurd (hcat.trans hc) hd
  · exact absurd (hcat.trans hc) he
  · exact absurd (hcat.trans hc) hi
  · exact absurd (hcat.trans hc) hf
  · exact absurd (hcat.trans hc) ho
  · exact absurd (hcat.trans hc) hne

theorem MBCInv_empty : MBCInv emptyMBC := by
  refine ⟨?_, ?_, ?_, ?_, ?_, ?_⟩ <;> intro m hm <;> simp [emptyMBC] at hm

theorem preload_foldl_inv (registry : List String) :
    ∀ (cfg : List ConfigSection) (acc : MakersByCategory × Bool × Bool),
      MBCInv acc.1 → MBCInv (cfg.foldl (preloadStep registry) acc).1 := by
  intro cfg
  induction cfg with
  | nil => intro acc h; simpa using h
  | cons sec rest ih =>
    intro acc h
    rw [List.foldl_cons]
    apply ih
    unfold preloadStep
    by_cases hh : sec.name = "hekad"
    · simpa [hh] using h
    · rw [if_neg hh]
      cases hN : NewPluginMakerM registry sec with
      | none => simpa using h
      | some mk =>
        obtain ⟨_, _, _, hcat, hne⟩ := NewPluginMakerM_some hN
        exact fileMaker_inv h hcat hne

theorem preload_foldl_multis_sub (registry : List String) :
    ∀ (cfg : List ConfigSection) (acc : MakersByCategory × Bool × Bool),
      ((cfg.foldl (preloadStep registry) acc).1.multis.map
        LoadedMaker.name).Sublist
        (acc.1.multis.map LoadedMaker.name ++ cfg.map ConfigSection.name) := by
  intro cfg
  induction cfg with
  | nil => intro acc; simp
  | cons sec rest ih =>
    intro acc
    rw [List.foldl_cons, List.map_cons]
    have step := ih (preloadStep registry acc sec)
    have hstep : (preloadStep registry acc sec).1.multis = acc.1.multis ∨
        ∃ mk, NewPluginMakerM registry sec = some mk ∧ mk.name = sec.name ∧
          (preloadStep registry acc sec).1.multis = acc.1.multis ++ [mk] := by
      unfold preloadStep
      by_cases hh : sec.name = "hekad"
      · simp [hh]
      · rw [if_neg hh]
        cases hN : NewPluginMakerM registry sec with
        | none => simp
        | some mk =>
          rcases fileMaker_multis acc.1 mk with h | h
          · left; simpa using h
          · right
            exact ⟨mk, rfl, (NewPluginMakerM_some hN).1, by simpa using h⟩
    rcases hstep with h | ⟨mk, _, hname, h⟩
    · rw [h] at step
      exact step.trans (List.Sublist.append_left (List.sublist_cons_self _ _) _)
    · have h2 : (preloadStep registry acc sec).1.multis.map LoadedMaker.name =
          acc.1.multis.map LoadedMaker.name ++ [sec.name] := by
        rw [h]
        simp [hname]
      rw [h2] at step
      simpa [List.append_assoc] using step

theorem preload_foldl_mono (registry : List String) :
    ∀ (cfg : List ConfigSection) (acc : MakersByCategory × Bool × Bool)
      (x : LoadedMaker), x ∈ mbcAll acc.1 →
      x ∈ mbcAll (cfg.foldl (preloadStep registry) acc).1 := by
  intro cfg
  induction cfg with
  | nil => intro acc x h; simpa using h
  | cons sec rest ih =>
    intro acc x h
    rw [List.foldl_cons]
    apply ih
    unfold preloadStep
    by_cases hh : sec.name = "hekad"
    · simpa [hh] using h
    · rw [if_neg hh]
      cases hN : NewPluginMakerM registry sec with
      | none => simpa using h
      | some mk => exact fileMaker_mono acc.1 mk x h

theorem preload_foldl_complete (registry : List String) :
    ∀ (cfg : List ConfigSection) (acc : MakersByCategory × Bool × Bool)
      (sec : ConfigSection), sec ∈ cfg → sec.name ≠ "hekad" →
      ∀ mk, NewPluginMakerM registry sec = some mk →
        mk ∈ mbcAll (cfg.foldl (preloadStep registry) acc).1 := by
  intro cfg
  induction cfg with
  | nil => intro acc sec h; simp at h
  | cons sec0 rest ih =>
    intro acc sec hsec hhek mk hN
    rw [List.foldl_cons]
    rcases List.mem_cons.mp hsec with rfl | h2
    · apply preload_foldl_mono registry rest (preloadStep registry acc sec)
      unfold preloadStep
      rw [if_neg hhek, hN]
      obtain ⟨_, _, _, hcat, hne⟩ := NewPluginMakerM_some hN
      exact fileMaker_self hcat hne
    · exact ih (preloadStep registry acc sec0) sec h2 hhek mk hN

theorem NewPluginMakerM_default_decoder {registry : List String}
    {mk : LoadedMaker}
    (h : NewPluginMakerM registry
      { name := "ProtobufDecoder", typ := "", subs := [] } = some mk) :
    mk.category = "Decoder" ∧ mk.typ ≠ "MultiDecoder" := by
  obtain ⟨_, _, ht, hc, _⟩ := NewPluginMakerM_some h
  have ht' : mk.typ = "ProtobufDecoder" := by simpa using ht
  constructor
  · rw [hc, ht']
    rfl
  · rw [ht']
    decide

theorem NewPluginMakerM_default_encoder {registry : List String}
    {mk : LoadedMaker}
    (h : NewPluginMakerM registry
      { name := "ProtobufEncoder", typ := "", subs := [] } = some mk) :
    mk.category = "Encoder" := by
  obtain ⟨_, _, ht, hc, _⟩ := NewPluginMakerM_some h
  have ht' : mk.typ = "ProtobufEncoder" := by simpa using ht
  rw [hc, ht']
  rfl

theorem addProtobuf_inv {registry : List String}
    {acc : MakersByCategory × Bool × Bool} (h : MBCInv acc.1) :
    MBCInv (addProtobufDefaults registry acc) := by
  unfold addProtobufDefaults
  dsimp only
  have hmbc1 : MBCInv (if acc.2.1 = true then acc.1
      else
        match NewPluginMakerM registry
            { name := "ProtobufDecoder", typ := "", subs := [] } with
        | some mk => { acc.1 with decoders := acc.1.decoders ++ [mk] }
        | none => acc.1) := by
    split
    · exact h
    · split
      · rename_i mk heq
        obtain ⟨hcd, hnm⟩ := NewPluginMakerM_default_decoder heq
        exact ⟨forall_mem_concat h.1 ⟨hcd, hnm⟩, h.2.1, h.2.2.1, h.2.2.2.1,
          h.2.2.2.2.1, h.2.2.2.2.2⟩
      · exact h
  split
  · exact hmbc1
  · split
    · rename_i mk heq
      exact ⟨hmbc1.1,
        forall_mem_concat hmbc1.2.1 (NewPluginMakerM_default_encoder heq),
        hmbc1.2.2.1, hmbc1.2.2.2.1, hmbc1.2.2.2.2.1, hmbc1.2.2.2.2.2⟩
    · exact hmbc1

theorem addProtobuf_multis (registry : List String)
    (acc : MakersByCategory × Bool × Bool) :
    (addProtobufDefaults registry acc).multis = acc.1.multis := by
  unfold addProtobufDefaults
  dsimp only
  split <;> (try split) <;> (try split) <;> (try split) <;> simp

theorem addProtobuf_mono {registry : List String}
    {acc : MakersByCategory × Bool × Bool} {x : LoadedMaker}
    (h : x ∈ mbcAll acc.1) : x ∈ mbcAll (addProtobufDefaults registry acc) := by
  unfold addProtobufDefaults
  dsimp only
  split <;> (try split) <;> (try split) <;> (try split) <;>
    first
      | exact h
      | (simp only [mbcAll, List.mem_append] at h ⊢; tauto)

theorem findNode_map (multis : List LoadedMaker) (n : String) :
    findNode (multis.map (fun m => multiDecoderNode.mk m.name m.subs)) n =
      (multis.find? (fun m => m.name == n)).map
        (fun m => multiDecoderNode.mk m.name m.subs) := by
  induction multis with
  | nil => rfl
  | cons m rest ih =>
    by_cases hp : (m.name == n) = true
    · simp [findNode, List.find?_cons, hp]
    · simp only [List.map_cons, findNode, List.find?_cons] at ih ⊢
      simp only [hp]
      exact ih

theorem filterMap_find_names (multis : List LoadedMaker) :
    ∀ (names : List String),
      (∀ n ∈ names, ∃ m, multis.find? (fun x => x.name == n) = some m) →
      ((names.filterMap (fun n => multis.find? (fun x => x.name == n))).map
        LoadedMaker.name) = names := by
  intro names
  induction names with
  | nil => intro _; rfl
  | cons n ns ih =>
    intro h
    obtain ⟨m, hm⟩ := h n (by simp)
    have hname : m.name = n := by simpa using List.find?_some hm
    simp only [List.filterMap_cons, hm, List.map_cons, hname]
    rw [ih (fun x hx => h x (by simp [hx]))]

theorem find?_name_of_nodup {multis : List LoadedMaker} {m : LoadedMaker}
    (hnd : (multis.map LoadedMaker.name).Nodup) (hm : m ∈ multis) :
    multis.find? (fun x => x.name == m.name) = some m := by
  induction multis with
  | nil => simp at hm
  | cons x rest ih =>
    rw [List.map_cons, List.nodup_cons] at hnd
    rcases List.mem_cons.mp hm with rfl | h2
    · simp [List.find?_cons]
    · have hx : ¬(x.name == m.name) = true := by
        simp only [beq_iff_eq]
        intro he
        exact hnd.1 (he ▸ List.mem_map.mpr ⟨m, h2, rfl⟩)
      rw [List.find?_cons]
      simp only [hx]
      exact ih hnd.2 h2

theorem pairwise_le_of_all_eq {f : LoadedMaker → Nat} (l : List LoadedMaker)
    (c : Nat) (h : ∀ a ∈ l, f a = c) :
    l.Pairwise (fun a b => f a ≤ f b) := by
  induction l with
  | nil => exact List.Pairwise.nil
  | cons x xs ih =>
    refine List.Pairwise.cons ?_ (ih fun a ha => h a (by simp [ha]))
    intro b hb
    rw [h x (by simp), h b (by simp [hb])]

theorem pairwise_le_append_bound {f : LoadedMaker → Nat}
    {l₁ l₂ : List LoadedMaker} {c : Nat}
    (h₁ : ∀ a ∈ l₁, f a ≤ c) (h₂ : ∀ b ∈ l₂, c ≤ f b)
    (p₁ : l₁.Pairwise (fun a b => f a ≤ f b))
    (p₂ : l₂.Pairwise (fun a b => f a ≤ f b)) :
    (l₁ ++ l₂).Pairwise (fun a b => f a ≤ f b) :=
  List.pairwise_append.mpr ⟨p₁, p₂, fun a ha b hb => (h₁ a ha).trans (h₂ b hb)⟩

/-- C1: during a configuration load, Multi-Decoder makers are segregated from
ordinary Decoder makers and appended, in dependency-resolved order, after all
ordinary Decoder makers in the final Decoder load order (every subordinate
that is itself a Multi-Decoder precedes its referrer), and the categories are
loaded in the strict order Decoder, Encoder, Input, Filter, Output (the
registration order is weakly monotone in the category index, with all Decoder
entries first).  Every maker successfully constructed from a non-reserved
section appears in the load order.  The hypothesis that section names are
distinct models the TOML document's map keys. -/
theorem C1_load_order (registry : List String) (cfg : List ConfigSection)
    (order : List LoadedMaker)
    (hnodup : (cfg.map ConfigSection.name).Nodup)
    (hok : loadFromConfigFile registry cfg = .ok order) :
    ∃ ds ms rest,
      order = ds ++ ms ++ rest ∧
      (∀ m ∈ ds, m.category = "Decoder" ∧ m.typ ≠ "MultiDecoder") ∧
      (∀ m ∈ ms, m.category = "Decoder" ∧ m.typ = "MultiDecoder") ∧
      (∀ m ∈ rest, m.category ≠ "Decoder") ∧
      (∀ m ∈ ms, ∀ sn ∈ m.subs, ∀ m', m' ∈ ms → m'.name = sn →
        idxOf sn (ms.map LoadedMaker.name) <
          idxOf m.name (ms.map LoadedMaker.name)) ∧
      order.Pairwise (fun a b => catIdx a.category ≤ catIdx b.category) ∧
      (∀ sec ∈ cfg, sec.name ≠ "hekad" →
        ∀ mk, NewPluginMakerM registry sec = some mk → mk ∈ order) := by
  unfold loadFromConfigFile at hok
  dsimp only at hok
  set mbc := addProtobufDefaults registry (preload registry cfg) with hmbcdef
  set nodes := mbc.multis.map (fun m => multiDecoderNode.mk m.name m.subs)
    with hnodesdef
  cases hord : orderDependencies nodes with
  | error e =>
    rw [hord] at hok
    simp at hok
  | ok names =>
    rw [hord] at hok
    dsimp only at hok
    injection hok with horder
    set ms := names.filterMap (fun n => mbc.multis.find? (fun m => m.name == n))
      with hmsdef
    have hinv : MBCInv mbc := by
      rw [hmbcdef]
      apply addProtobuf_inv
      unfold preload
      exact preload_foldl_inv registry cfg _ MBCInv_empty
    have hmsub : (mbc.multis.map LoadedMaker.name).Sublist
        (cfg.map ConfigSection.name) := by
      rw [hmbcdef, addProtobuf_multis]
      have h := preload_foldl_multis_sub registry cfg (emptyMBC, false, false)
      simpa [preload, emptyMBC] using h
    have hmnd : (mbc.multis.map LoadedMaker.name).Nodup := hmsub.nodup hnodup
    obtain ⟨hdep, hnamesnd, hsome, hcompl⟩ := orderDependencies_spec hord
    have hfind_map : ∀ n, findNode nodes n =
        (mbc.multis.find? (fun m => m.name == n)).map
          (fun m => multiDecoderNode.mk m.name m.subs) := by
      intro n
      rw [hnodesdef]
      exact findNode_map mbc.multis n
    have hex : ∀ n ∈ names,
        ∃ m, mbc.multis.find? (fun x => x.name == n) = some m := by
      intro n hn
      have h1 := hsome n hn
      rw [hfind_map] at h1
      rcases hfind : mbc.multis.find? (fun x => x.name == n) with _ | m
      · rw [hfind] at h1
        simp at h1
      · exact ⟨m, hfind⟩
    have hms_names : ms.map LoadedMaker.name = names := by
      rw [hmsdef]
      exact filterMap_find_names mbc.multis names hex
    have hms_sub : ∀ m ∈ ms, m ∈ mbc.multis := by
      intro m hm
      rw [hmsdef] at hm
      obtain ⟨n, _, hfind⟩ := List.mem_filterMap.mp hm
      exact List.mem_of_find?_eq_some hfind
    have hms_cat : ∀ m ∈ ms, m.category = "Decoder" ∧ m.typ = "MultiDecoder" := by
      intro m hm
      obtain ⟨ht, hc⟩ := hinv.2.2.2.2.2 m (hms_sub m hm)
      exact ⟨hc, ht⟩
    have hmulti_in_ms : ∀ m ∈ mbc.multis, m ∈ ms := by
      intro m hm
      have hnode : multiDecoderNode.mk m.name m.subs ∈ nodes := by
        rw [hnodesdef]
        exact List.mem_map.mpr ⟨m, hm, rfl⟩
      have hname_in : m.name ∈ names := hcompl _ hnode
      rw [hmsdef]
      exact List.mem_filterMap.mpr ⟨m.name, hname_in, find?_name_of_nodup hmnd hm⟩
    have c0 : ∀ a ∈ mbc.decoders ++ ms, catIdx a.category = 0 := by
      intro a ha
      rcases List.mem_append.mp ha with h | h
      · rw [(hinv.1 a h).1]
        rfl
      · rw [(hms_cat a h).1]
        rfl
    have c1 : ∀ a ∈ mbc.encoders, catIdx a.category = 1 := by
      intro a ha
      rw [hinv.2.1 a ha]
      rfl
    have c2 : ∀ a ∈ mbc.inputs, catIdx a.category = 2 := by
      intro a ha
      rw [hinv.2.2.1 a ha]
      rfl
    have c3 : ∀ a ∈ mbc.filters, catIdx a.category = 3 := by
      intro a ha
      rw [hinv.2.2.2.1 a ha]
      rfl
    have c4 : ∀ a ∈ mbc.outputs, catIdx a.category = 4 := by
      intro a ha
      rw [hinv.2.2.2.2.1 a ha]
      rfl
    refine ⟨mbc.decoders, ms,
      mbc.encoders ++ mbc.inputs ++ mbc.filters ++ mbc.outputs,
      ?_, hinv.1, hms_cat, ?_, ?_, ?_, ?_⟩
    · rw [← horder]
      simp [List.append_assoc]
    · intro m hm
      rcases List.mem_append.mp hm with hm2 | h
      · rcases List.mem_append.mp hm2 with hm3 | h
        · rcases List.mem_append.mp hm3 with h | h
          · rw [hinv.2.1 m h]
            decide
          · rw [hinv.2.2.1 m h]
            decide
        · rw [hinv.2.2.2.1 m h]
          decide
      · rw [hinv.2.2.2.2.1 m h]
        decide
    · intro m hm sn hsn m' hm' hm'name
      have hm0 := hm
      rw [hmsdef] at hm0
      obtain ⟨n0, hn0, hfind0⟩ := List.mem_filterMap.mp hm0
      have hmn0 : m.name = n0 := by simpa using List.find?_some hfind0
      have hfind0' : mbc.multis.find? (fun x => x.name == m.name) = some m := by
        rw [hmn0]
        exact hfind0
      have hfn : findNode nodes m.name =
          some (multiDecoderNode.mk m.name m.subs) := by
        rw [hfind_map m.name, hfind0']
        rfl
      have hm_in_names : m.name ∈ names := by
        rw [hmn0]
        exact hn0
      have hm'0 := hm'
      rw [hmsdef] at hm'0
      obtain ⟨n1, hn1, hfind1⟩ := List.mem_filterMap.mp hm'0
      have hm'n1 : m'.name = n1 := by simpa using List.find?_some hfind1
      have hsn_names : sn ∈ names := by
        rw [← hm'name, hm'n1]
        exact hn1
      have hsn_some : (findNode nodes sn).isSome = true := hsome sn hsn_names
      obtain ⟨_, hidx⟩ := hdep m.name hm_in_names _ hfn sn hsn hsn_some
      rw [hms_names]
      exact hidx
    · rw [← horder]
      have p01 := pairwise_le_of_all_eq (mbc.decoders ++ ms) 0 c0
      have a01 : ∀ a ∈ mbc.decoders ++ ms, catIdx a.category ≤ 1 := by
        intro a ha
        rw [c0 a ha]
        omega
      have p2 := pairwise_le_append_bound (c := 1) a01
        (fun b hb => (c1 b hb).ge) p01 (pairwise_le_of_all_eq _ 1 c1)
      have a2 : ∀ a ∈ mbc.decoders ++ ms ++ mbc.encoders,
          catIdx a.category ≤ 2 := by
        intro a ha
        rcases List.mem_append.mp ha with h | h
        · have := a01 a h
          omega
        · rw [c1 a h]
          omega
      have p3 := pairwise_le_append_bound (c := 2) a2
        (fun b hb => (c2 b hb).ge) p2 (pairwise_le_of_all_eq _ 2 c2)
      have a3 : ∀ a ∈ mbc.decoders ++ ms ++ mbc.encoders ++ mbc.inputs,
          catIdx a.category ≤ 3 := by
        intro a ha
        rcases List.mem_append.mp ha with h | h
        · have := a2 a h
          omega
        · rw [c2 a h]
          omega
      have p4 := pairwise_le_append_bound (c := 3) a3
        (fun b hb => (c3 b hb).ge) p3 (pairwise_le_of_all_eq _ 3 c3)
      have a4 : ∀ a ∈ mbc.decoders ++ ms ++ mbc.encoders ++ mbc.inputs ++
          mbc.filters, catIdx a.category ≤ 4 := by
        intro a ha
        rcases List.mem_append.mp ha with h | h
        · have := a3 a h
          omega
        · rw [c3 a h]
          omega
      exact pairwise_le_append_bound (c := 4) a4
        (fun b hb => (c4 b hb).ge) p4 (pairwise_le_of_all_eq _ 4 c4)
    · intro sec hsec hhek mk hN
      have h1 : mk ∈ mbcAll (preload registry cfg).1 := by
        unfold preload
        exact preload_foldl_complete registry cfg (emptyMBC, false, false)
          sec hsec hhek mk hN
      have h2 : mk ∈ mbcAll mbc := by
        rw [hmbcdef]
        exact addProtobuf_mono h1
      rw [← horder]
      simp only [mbcAll, List.mem_append] at h2
      simp only [List.mem_append]
      have hms : mk ∈ mbc.multis → mk ∈ ms := hmulti_in_ms mk
      tauto

/-- C1 witness: the end-to-end configuration declaring Multi-Decoder `A`
with subordinate `B` and Multi-Decoder `B` with no subordinates loads, after
the ordinary decoders, `B` before `A`, with the categories in order. -/
theorem C1_load_order_witness :
    ∃ ds ms rest,
      orderEx = ds ++ ms ++ rest ∧
      (∀ m ∈ ds, m.category = "Decoder" ∧ m.typ ≠ "MultiDecoder") ∧
      (∀ m ∈ ms, m.category = "Decoder" ∧ m.typ = "MultiDecoder") ∧
      (∀ m ∈ rest, m.category ≠ "Decoder") ∧
      (∀ m ∈ ms, ∀ sn ∈ m.subs, ∀ m', m' ∈ ms → m'.name = sn →
        idxOf sn (ms.map LoadedMaker.name) <
          idxOf m.name (ms.map LoadedMaker.name)) ∧
      orderEx.Pairwise (fun a b => catIdx a.category ≤ catIdx b.category) ∧
      (∀ sec ∈ cfgEx, sec.name ≠ "hekad" →
        ∀ mk, NewPluginMakerM regEx sec = some mk → mk ∈ orderEx) :=
  C1_load_order regEx cfgEx orderEx (by decide) rfl
